import Mathlib

/-!
A shallow embedding of `sslkeylog.c`.

Bytes and `char`s are natural numbers below 256, C arrays are lists whose
length is the array size, and every access outside an array is a `Fault`.
The process-wide state the shim touches (its static descriptor, the
environment variable, the key-log file and the system calls made so far) is
the record `World`.
-/

namespace SslKeylog

/-! ## Memory -/

/-- Ways in which the C program leaves defined behaviour or stops. -/
inductive Fault where
  | oobStore (index size : Nat)
  | oobLoad (index size : Nat)
  | nullDeref
  | abort (sym : String)
  deriving DecidableEq, Repr

/-- The assignment `buf[i] = v` on an array of `buf.length` cells. -/
def store (buf : List Nat) (i v : Nat) : Except Fault (List Nat) :=
  if i < buf.length then .ok (buf.set i v) else .error (.oobStore i buf.length)

/-- The read `buf[i]`. -/
def load (buf : List Nat) (i : Nat) : Except Fault Nat :=
  match buf[i]? with
  | some v => .ok v
  | none => .error (.oobLoad i buf.length)

/-- The call `memcpy(dst, src, n)`: the first `n` cells of `dst` become the
first `n` cells of `src`. -/
def memcpy (dst src : List Nat) (n : Nat) : Except Fault (List Nat) :=
  if src.length < n then .error (.oobLoad src.length src.length)
  else if dst.length < n then .error (.oobStore dst.length dst.length)
  else .ok (src.take n ++ dst.drop n)

/-- The call `memcmp(a, b, n)`: zero when the first `n` cells agree, else the
difference of the first pair that differs. -/
def memcmp (a b : List Nat) : Nat → Except Fault Int
  | 0 => .ok 0
  | n + 1 =>
    match a, b with
    | x :: as, y :: bs => if x = y then memcmp as bs n else .ok ((x : Int) - (y : Int))
    | [], _ => .error (.oobLoad a.length a.length)
    | _, [] => .error (.oobLoad b.length b.length)

/-! ## Constants -/

/-- Modelled from the spec: the OpenSSL header constant `SSL3_RANDOM_SIZE`,
which the spec gives as the fixed 32 bytes of a client random. -/
def SSL3_RANDOM_SIZE : Nat := 32

/-- Modelled from the spec: the OpenSSL header constant
`SSL_MAX_MASTER_KEY_LENGTH`, which the spec gives as 48. -/
def SSL_MAX_MASTER_KEY_LENGTH : Nat := 48

/-- The bytes of a C string literal, without the terminating NUL. -/
def cstr (s : String) : List Nat := s.toList.map Char.toNat

def PREFIX : List Nat := cstr "CLIENT_RANDOM "

def PREFIX_LEN : Nat := PREFIX.length

def FIRSTLINE : List Nat := cstr "# SSL key logfile generated by sslkeylog.c\n"

def FIRSTLINE_LEN : Nat := FIRSTLINE.length

/-! ## The process-wide state -/

/-- System calls made by the shim, in the order they were made. -/
inductive Syscall where
  | open (path : String)
  | lseek (fd : Int)
  | write (fd : Int) (bytes : List Nat)
  deriving DecidableEq, Repr

/-- Everything outside the TLS library that the shim reads or changes.
`open_results` lists what the successive `open` calls will return (`none` is
a failure, as is an exhausted list), `opened` is the descriptor that refers
to the key-log file once an `open` succeeded, `file` is the content of that
file (empty when `open` has to create it), and `junk` is what uninitialised
stack memory happens to hold. -/
structure World where
  keylog_file_fd : Int
  SSLKEYLOGFILE : Option String
  open_results : List (Option Nat)
  opened : Option Int
  file : List Nat
  trace : List Syscall
  junk : List Nat
  deriving DecidableEq, Repr

/-- An uninitialised local array of `n` cells. -/
def uninit (w : World) (n : Nat) : List Nat :=
  (List.range n).map (fun i => w.junk.getD i 0)

/-- The call `open(path, O_WRONLY | O_APPEND | O_CREAT, 0644)`. -/
def sys_open (path : String) (w : World) : Int × World :=
  match w.open_results with
  | some fd :: rest =>
    ((fd : Int), { w with open_results := rest, opened := some (fd : Int),
                          trace := w.trace ++ [.open path] })
  | none :: rest => (-1, { w with open_results := rest, trace := w.trace ++ [.open path] })
  | [] => (-1, { w with trace := w.trace ++ [.open path] })

/-- The call `lseek(fd, 0, SEEK_END)`: the size of the file behind `fd`. -/
def sys_lseek_end (fd : Int) (w : World) : Int × World :=
  (if w.opened = some fd then (w.file.length : Int) else -1,
   { w with trace := w.trace ++ [.lseek fd] })

/-- The call `write(fd, bytes, bytes.length)` on a descriptor opened with
`O_APPEND`. -/
def sys_write (fd : Int) (bytes : List Nat) (w : World) : World :=
  { w with trace := w.trace ++ [.write fd bytes],
           file := if w.opened = some fd then w.file ++ bytes else w.file }

/-! ## The line encoder -/

/-- The function `put_hex`: `c` is the byte held by the `char` argument. The
cast `(unsigned char) c` is `c % 256`, and `c & 0xF` keeps the four low bits
of that byte whether `char` is signed or not. -/
def put_hex (buffer : List Nat) (pos : Nat) (c : Nat) : Except Fault (List Nat) := do
  let c1 := (c % 256) >>> 4
  let c2 := (c &&& 0xF) % 256
  let buffer ← store buffer pos (if c1 < 10 then '0'.toNat + c1 else 'A'.toNat + c1 - 10)
  store buffer (pos + 1) (if c2 < 10 then '0'.toNat + c2 else 'A'.toNat + c2 - 10)

/-- The two loops of `dump_to_fd`,
`for (i = 0; i < n; i++) { put_hex(line, pos, src[i]); pos += 2; }`,
with `k` the number of iterations still to run. -/
def hex_loop (src : List Nat) : Nat → Nat → Nat → List Nat → Except Fault (Nat × List Nat)
  | 0, _, pos, line => .ok (pos, line)
  | k + 1, i, pos, line => do
    let c ← load src i
    let line ← put_hex line pos c
    hex_loop src k (i + 1) (pos + 2) line

/-- The function `dump_to_fd`. -/
def dump_to_fd (fd : Int) (client_random master_key : List Nat) (master_key_length : Int)
    (w : World) : Except Fault World := do
  let line := uninit w (PREFIX_LEN + 2 * SSL3_RANDOM_SIZE + 1 + 2 * SSL_MAX_MASTER_KEY_LENGTH + 1)
  let line ← memcpy line PREFIX PREFIX_LEN
  let pos := PREFIX_LEN
  let (pos, line) ← hex_loop client_random SSL3_RANDOM_SIZE 0 pos line
  let line ← store line pos ' '.toNat
  let pos := pos + 1
  let (pos, line) ← hex_loop master_key master_key_length.toNat 0 pos line
  let line ← store line pos '\n'.toNat
  let pos := pos + 1
  if line.length < pos then .error (.oobLoad line.length line.length)
  else .ok (sys_write fd (line.take pos) w)

/-- The function `init_keylog_file`. -/
def init_keylog_file (w : World) : World :=
  if w.keylog_file_fd ≥ 0 then w
  else
    match w.SSLKEYLOGFILE with
    | some filename =>
      let (fd, w) := sys_open filename w
      let w := { w with keylog_file_fd := fd }
      if w.keylog_file_fd ≥ 0 then
        let (size, w) := sys_lseek_end w.keylog_file_fd w
        if size = 0 then sys_write w.keylog_file_fd FIRSTLINE w else w
      else w
    | none => w

/-! ## The TLS library as the shim sees it -/

/-- The two fields of OpenSSL's `SSL_SESSION` that the shim reads. -/
structure SSL_SESSION where
  master_key_length : Int
  master_key : List Nat
  deriving DecidableEq, Repr

/-- The parts of OpenSSL's `SSL` object that the shim reads: `session` is
`none` for a NULL pointer, and `s3` holds `s3->client_random`, or is `none`
when `ssl->s3` is NULL. -/
structure SSL where
  session : Option SSL_SESSION
  s3 : Option (List Nat)
  deriving DecidableEq, Repr

structure ssl_tap_state_t where
  master_key_length : Int
  master_key : List Nat
  deriving DecidableEq, Repr

/-- A real entry point of the library, `int (*func)()`: from the argument
words and the state of the host process to the returned `int` and the new
state. -/
abbrev Func (H : Type) := List Int → H → Int × H

/-- The host process and its TLS library. `modern` is the build-time test
`OPENSSL_VERSION_NUMBER >= 0x10100000L`, `rtld_next` is `dlsym(RTLD_NEXT, _)`,
`soname` is the library `dlopen(OPENSSL_SONAME, RTLD_LAZY)` loads (`none`
when it fails) with its own symbol table, and `ssl_at h p` is the `SSL`
object that the pointer `p` designates in the host state `h`. -/
structure Host (H : Type) where
  modern : Bool
  rtld_next : String → Option (Func H)
  soname : Option (String → Option (Func H))
  ssl_at : H → Int → SSL

/-- The function `lookup_symbol`. -/
def lookup_symbol {H : Type} (hst : Host H) (sym : String) : Except Fault (Func H) :=
  match hst.rtld_next sym with
  | some func => .ok func
  | none =>
    match hst.soname with
    | none => .error (.abort sym)
    | some handle =>
      match handle sym with
      | none => .error (.abort sym)
      | some func => .ok func

/-- OpenSSL's accessor `SSL_SESSION_get_master_key(session, out, outlen)`, as
OpenSSL documents it: copies at most `outlen` bytes of the master key and
returns how many it copied (the key length itself when `outlen` is 0). -/
def SSL_SESSION_get_master_key (session : SSL_SESSION) (out : List Nat) (outlen : Nat) :
    Except Fault (List Nat × Nat) :=
  if outlen = 0 then .ok (out, session.master_key_length.toNat)
  else do
    let outlen := if outlen > session.master_key_length.toNat
      then session.master_key_length.toNat else outlen
    let out ← memcpy out session.master_key outlen
    pure (out, outlen)

/-- OpenSSL's accessor `SSL_get_client_random(ssl, out, outlen)`, as OpenSSL
documents it; it dereferences `ssl->s3` without a check. -/
def SSL_get_client_random (ssl : SSL) (out : List Nat) (outlen : Nat) :
    Except Fault (List Nat × Nat) :=
  match ssl.s3 with
  | none => .error .nullDeref
  | some client_random =>
    if outlen = 0 then .ok (out, client_random.length)
    else do
      let outlen := if outlen > client_random.length then client_random.length else outlen
      let out ← memcpy out client_random outlen
      pure (out, outlen)

/-- The function `ssl_get_session`. The source keeps each resolved pointer in
a function-local static; resolution is a function of the name here, so the
pointer found at a later call is the cached one. -/
def ssl_get_session {H : Type} (hst : Host H) (h : H) (ssl : Int) :
    Except Fault (Option SSL_SESSION) :=
  if hst.modern then do
    let _func ← lookup_symbol hst "SSL_get_session"
    pure (hst.ssl_at h ssl).session
  else pure (hst.ssl_at h ssl).session

/-- The function `copy_master_secret`: returns the new contents of
`master_key_out` and `*keylen_out`. -/
def copy_master_secret {H : Type} (hst : Host H) (session : SSL_SESSION)
    (master_key_out : List Nat) (keylen_out : Int) : Except Fault (List Nat × Int) :=
  if hst.modern then do
    let _func ← lookup_symbol hst "SSL_SESSION_get_master_key"
    let (master_key_out, n) ←
      SSL_SESSION_get_master_key session master_key_out SSL_MAX_MASTER_KEY_LENGTH
    pure (master_key_out, (n : Int))
  else if session.master_key_length > 0 then do
    let master_key_out ←
      memcpy master_key_out session.master_key session.master_key_length.toNat
    pure (master_key_out, session.master_key_length)
  else pure (master_key_out, keylen_out)

/-- The function `copy_client_random`: returns the new contents of
`client_random`. -/
def copy_client_random {H : Type} (hst : Host H) (h : H) (ssl : Int)
    (client_random : List Nat) : Except Fault (List Nat) :=
  if hst.modern then do
    let _func ← lookup_symbol hst "SSL_get_client_random"
    let (client_random, _) ←
      SSL_get_client_random (hst.ssl_at h ssl) client_random SSL3_RANDOM_SIZE
    pure client_random
  else
    match (hst.ssl_at h ssl).s3 with
    | some s3 => memcpy client_random s3 SSL3_RANDOM_SIZE
    | none => pure client_random

/-- The function `ssl_tap_state_init`, which is all the macro `SSL_TAP_STATE`
runs: returns the snapshot it leaves in `*state`. -/
def ssl_tap_state_init {H : Type} (hst : Host H) (h : H) (ssl : Int) :
    Except Fault ssl_tap_state_t := do
  let session ← ssl_get_session hst h ssl
  let state : ssl_tap_state_t :=
    { master_key_length := 0, master_key := List.replicate SSL_MAX_MASTER_KEY_LENGTH 0 }
  match session with
  | some session =>
    let (master_key, master_key_length) ←
      copy_master_secret hst session state.master_key state.master_key_length
    pure { master_key_length := master_key_length, master_key := master_key }
  | none => pure state

/-- The function `tap_ssl_key`. -/
def tap_ssl_key {H : Type} (hst : Host H) (h : H) (ssl : Int) (state : ssl_tap_state_t)
    (w : World) : Except Fault World := do
  let session ← ssl_get_session hst h ssl
  let client_random := uninit w SSL3_RANDOM_SIZE
  let master_key := uninit w SSL_MAX_MASTER_KEY_LENGTH
  let master_key_length : Int := 0
  let (client_random, master_key, master_key_length) ←
    match session with
    | some session => do
      let (master_key, master_key_length) ←
        copy_master_secret hst session master_key master_key_length
      if master_key_length > 0 then
        let client_random ← copy_client_random hst h ssl client_random
        pure (client_random, master_key, master_key_length)
      else pure (client_random, master_key, master_key_length)
    | none => pure (client_random, master_key, master_key_length)
  if master_key_length > 0 then
    let unchanged ←
      if state.master_key_length = master_key_length then do
        let r ← memcmp state.master_key master_key master_key_length.toNat
        pure (decide (r = 0))
      else pure false
    if unchanged then pure w
    else
      let w := init_keylog_file w
      if w.keylog_file_fd ≥ 0 then
        dump_to_fd w.keylog_file_fd client_random master_key master_key_length w
      else pure w
  else pure w

/-- The wrapper `SSL_connect`: returns `ret` with the host state and the
world it leaves behind. The static `func` of the source holds what
`lookup_symbol` returned at the first call, which is what it returns here at
every call. -/
def SSL_connect {H : Type} (hst : Host H) (ssl : Int) (h : H) (w : World) :
    Except Fault (Int × H × World) := do
  let func ← lookup_symbol hst "SSL_connect"
  let state ← ssl_tap_state_init hst h ssl
  let (ret, h) := func [ssl] h
  let w ← tap_ssl_key hst h ssl state w
  pure (ret, h, w)

/-- The wrapper `SSL_do_handshake`. -/
def SSL_do_handshake {H : Type} (hst : Host H) (ssl : Int) (h : H) (w : World) :
    Except Fault (Int × H × World) := do
  let func ← lookup_symbol hst "SSL_do_handshake"
  let state ← ssl_tap_state_init hst h ssl
  let (ret, h) := func [ssl] h
  let w ← tap_ssl_key hst h ssl state w
  pure (ret, h, w)

/-- The wrapper `SSL_accept`. -/
def SSL_accept {H : Type} (hst : Host H) (ssl : Int) (h : H) (w : World) :
    Except Fault (Int × H × World) := do
  let func ← lookup_symbol hst "SSL_accept"
  let state ← ssl_tap_state_init hst h ssl
  let (ret, h) := func [ssl] h
  let w ← tap_ssl_key hst h ssl state w
  pure (ret, h, w)

/-- The wrapper `SSL_read`. -/
def SSL_read {H : Type} (hst : Host H) (ssl buf num : Int) (h : H) (w : World) :
    Except Fault (Int × H × World) := do
  let func ← lookup_symbol hst "SSL_read"
  let state ← ssl_tap_state_init hst h ssl
  let (ret, h) := func [ssl, buf, num] h
  let w ← tap_ssl_key hst h ssl state w
  pure (ret, h, w)

/-- The wrapper `SSL_write`. -/
def SSL_write {H : Type} (hst : Host H) (ssl buf num : Int) (h : H) (w : World) :
    Except Fault (Int × H × World) := do
  let func ← lookup_symbol hst "SSL_write"
  let state ← ssl_tap_state_init hst h ssl
  let (ret, h) := func [ssl, buf, num] h
  let w ← tap_ssl_key hst h ssl state w
  pure (ret, h, w)

/-! ## Sequences of intercepted calls -/

/-- One call the host makes on a session: which of the five entry points,
with the arguments that follow the `SSL *`. -/
inductive Call where
  | connect
  | do_handshake
  | accept
  | read (buf num : Int)
  | write (buf num : Int)
  deriving DecidableEq, Repr

/-- The symbol a call names. -/
def Call.sym : Call → String
  | .connect => "SSL_connect"
  | .do_handshake => "SSL_do_handshake"
  | .accept => "SSL_accept"
  | .read _ _ => "SSL_read"
  | .write _ _ => "SSL_write"

/-- The argument words of a call on the session `ssl`. -/
def Call.args (ssl : Int) : Call → List Int
  | .connect => [ssl]
  | .do_handshake => [ssl]
  | .accept => [ssl]
  | .read buf num => [ssl, buf, num]
  | .write buf num => [ssl, buf, num]

/-- The host makes the call `c` with the shim preloaded. -/
def intercepted {H : Type} (hst : Host H) (ssl : Int) (c : Call) (h : H) (w : World) :
    Except Fault (Int × H × World) :=
  match c with
  | .connect => SSL_connect hst ssl h w
  | .do_handshake => SSL_do_handshake hst ssl h w
  | .accept => SSL_accept hst ssl h w
  | .read buf num => SSL_read hst ssl buf num h w
  | .write buf num => SSL_write hst ssl buf num h w

/-- The host makes the call `c` without the shim: the real implementation is
called directly. -/
def direct {H : Type} (hst : Host H) (ssl : Int) (c : Call) (h : H) : Except Fault (Int × H) := do
  let func ← lookup_symbol hst c.sym
  pure (func (c.args ssl) h)

/-- What one intercepted call did: the value it returned and the system
calls made during it. -/
structure Outcome where
  ret : Int
  syscalls : List Syscall
  deriving DecidableEq, Repr

/-- The host makes the calls `cs` in order with the shim preloaded. -/
def intercepted_run {H : Type} (hst : Host H) (ssl : Int) :
    List Call → H → World → Except Fault (List Outcome × H × World)
  | [], h, w => .ok ([], h, w)
  | c :: cs, h, w => do
    let (ret, h1, w1) ← intercepted hst ssl c h w
    let (rest, h2, w2) ← intercepted_run hst ssl cs h1 w1
    pure ({ ret := ret, syscalls := w1.trace.drop w.trace.length } :: rest, h2, w2)

/-- The host states before, between and after the calls `cs` when the real
implementations are called directly: `cs.length + 1` states, the first being
`h`. A call whose symbol cannot be resolved ends the list. -/
def host_states {H : Type} (hst : Host H) (ssl : Int) : List Call → H → List H
  | [], h => [h]
  | c :: cs, h =>
    match direct hst ssl c h with
    | .ok (_, h1) => h :: host_states hst ssl cs h1
    | .error _ => [h]

/-- The master secret of a session object: the first `master_key_length`
bytes of its key array, empty when there is no session. -/
def SSL.secret (s : SSL) : List Nat :=
  match s.session with
  | some session => session.master_key.take session.master_key_length.toNat
  | none => []

/-- Whether a system call writes a `CLIENT_RANDOM` line. -/
def is_log_line : Syscall → Bool
  | .write _ bytes => decide (bytes.take PREFIX_LEN = PREFIX)
  | _ => false

/-- The two characters `put_hex` stores for the byte `c`, in buffer order. -/
def hex_pair (c : Nat) : List Nat :=
  [if (c % 256) >>> 4 < 10 then '0'.toNat + (c % 256) >>> 4 else 'A'.toNat + (c % 256) >>> 4 - 10,
   if (c &&& 0xF) % 256 < 10 then '0'.toNat + (c &&& 0xF) % 256
   else 'A'.toNat + (c &&& 0xF) % 256 - 10]

/-- The bytes `dump_to_fd` is meant to hand to `write`: the tag, the hex of the
32 bytes of client random, a space, the hex of the first `n` bytes of the
master key, a newline. -/
def log_line (client_random master_key : List Nat) (n : Nat) : List Nat :=
  PREFIX ++ (client_random.take SSL3_RANDOM_SIZE).flatMap hex_pair ++ [' '.toNat] ++
    (master_key.take n).flatMap hex_pair ++ ['\n'.toNat]

/-- Whether `lookup_symbol` finds the symbol, rather than aborting. -/
def resolves {H : Type} (hst : Host H) (sym : String) : Bool :=
  match lookup_symbol hst sym with
  | .ok _ => true
  | .error _ => false

/-- The accessor entry points a build against OpenSSL 1.1.0 or later looks up
are all found. A build against an older OpenSSL looks none up. -/
def accessors_resolve {H : Type} (hst : Host H) : Prop :=
  hst.modern = true →
    resolves hst "SSL_get_session" = true ∧
    resolves hst "SSL_SESSION_get_master_key" = true ∧
    resolves hst "SSL_get_client_random" = true

/-- What OpenSSL guarantees about a session object: a master key length
between 0 and 48, a key array of 48 bytes and a client random of 32 bytes;
and, for the accessor `SSL_get_client_random` to be callable, a non-NULL
`s3` once the session has a master key. -/
def SSL.wf (modern : Bool) (s : SSL) : Prop :=
  (match s.session with
    | some session =>
      0 ≤ session.master_key_length ∧
      session.master_key_length ≤ (SSL_MAX_MASTER_KEY_LENGTH : Int) ∧
      session.master_key.length = SSL_MAX_MASTER_KEY_LENGTH ∧
      (modern = true → 0 < session.master_key_length → s.s3.isSome = true)
    | none => True) ∧
  (match s.s3 with
    | some client_random => client_random.length = SSL3_RANDOM_SIZE
    | none => True)

instance SSL.decidable_wf (modern : Bool) (s : SSL) : Decidable (s.wf modern) := by
  cases s with
  | mk session s3 =>
    cases session <;> cases s3 <;> unfold SSL.wf <;> exact inferInstanceAs (Decidable (_ ∧ _))

/-- A snapshot as `ssl_tap_state_init` can leave it: a length between 0 and 48
and a 48-byte array. -/
def ssl_tap_state_t.wf (state : ssl_tap_state_t) : Prop :=
  0 ≤ state.master_key_length ∧
  state.master_key_length ≤ (SSL_MAX_MASTER_KEY_LENGTH : Int) ∧
  state.master_key.length = SSL_MAX_MASTER_KEY_LENGTH

instance ssl_tap_state_t.decidable_wf (state : ssl_tap_state_t) : Decidable state.wf :=
  inferInstanceAs (Decidable (_ ∧ _ ∧ _))

/-- The secret a snapshot holds: the first `master_key_length` bytes of its
array. -/
def ssl_tap_state_t.secret (state : ssl_tap_state_t) : List Nat :=
  state.master_key.take state.master_key_length.toNat

/-- The key-log file is open, or `SSLKEYLOGFILE` is set and the next `open`
succeeds. -/
def can_log (w : World) : Prop :=
  0 ≤ w.keylog_file_fd ∨
    (w.SSLKEYLOGFILE.isSome = true ∧ ∃ fd rest, w.open_results = some fd :: rest)

/-- The client random `tap_ssl_key` has in its local array when it logs: the
session's, or what the array held before when `ssl->s3` is NULL. -/
def seen_client_random (s : SSL) (w : World) : List Nat :=
  match s.s3 with
  | some client_random => client_random
  | none => uninit w SSL3_RANDOM_SIZE

/-- The logging step of `tap_ssl_key` for the bytes `line`: `init_keylog_file`,
then one `write` of the line if the descriptor is not negative. -/
def log_step (line : List Nat) (w : World) : World :=
  let w1 := init_keylog_file w
  if w1.keylog_file_fd ≥ 0 then sys_write w1.keylog_file_fd line w1 else w1

/-- The logging step of `tap_ssl_key` for the session object `s`: the line is
the one of the client random the function holds and of the session's
secret. -/
def log_key (s : SSL) (w : World) : World :=
  log_step (log_line (seen_client_random s w) s.secret s.secret.length) w

/-- The snapshot `ssl_tap_state_init` takes of the session object `s`: the key
length, and the key bytes copied over a zeroed array. -/
def snapshot (s : SSL) : ssl_tap_state_t :=
  match s.session with
  | some session =>
    { master_key_length := session.master_key_length,
      master_key := session.master_key.take session.master_key_length.toNat ++
        (List.replicate SSL_MAX_MASTER_KEY_LENGTH 0).drop session.master_key_length.toNat }
  | none => { master_key_length := 0, master_key := List.replicate SSL_MAX_MASTER_KEY_LENGTH 0 }

/-- A session object whose master secret is `key` (at most 48 bytes), with
the client random 0x01..0x20. -/
def session_with (key : List Nat) : SSL :=
  { session := some
      { master_key_length := (key.length : Int),
        master_key := key ++ List.replicate (SSL_MAX_MASTER_KEY_LENGTH - key.length) 0 },
    s3 := some (List.range' 1 32) }

/-- A session object before the handshake has produced a master secret. -/
def session_without_key : SSL :=
  { session := some
      { master_key_length := 0, master_key := List.replicate SSL_MAX_MASTER_KEY_LENGTH 0 },
    s3 := none }

/-- A host whose state is the number of real calls made so far: every symbol
is found, every real call returns the sum of its argument words and counts
itself, and `view n` is the session object after `n` calls. -/
def counting_host (modern : Bool) (view : Nat → SSL) : Host Nat :=
  { modern := modern,
    rtld_next := fun _ => some (fun args n => (args.sum, n + 1)),
    soname := none,
    ssl_at := fun n _ => view n }

/-- The session gets the secret AA BB during the second call and keeps it. -/
def handshake_view (n : Nat) : SSL :=
  if n < 2 then session_without_key else session_with [0xAA, 0xBB]

/-- The session gets the secret AA BB during the first call and, after a
renegotiation, the secret CC during the second. -/
def renegotiation_view (n : Nat) : SSL :=
  if n = 0 then session_without_key
  else if n = 1 then session_with [0xAA, 0xBB]
  else session_with [0xCC]

/-- The session has the secret AA BB before the call and none after it. -/
def reset_view (n : Nat) : SSL :=
  if n = 0 then session_with [0xAA, 0xBB] else session_without_key

/-- A process in which `SSLKEYLOGFILE` is not set. -/
def world_unset : World :=
  { keylog_file_fd := -1, SSLKEYLOGFILE := none, open_results := [some 3], opened := none,
    file := [], trace := [], junk := [] }

/-- A process in which `SSLKEYLOGFILE` names a file that cannot be opened. -/
def world_unopenable : World :=
  { keylog_file_fd := -1, SSLKEYLOGFILE := some "/nowhere/keys.log", open_results := [],
    opened := none, file := [], trace := [], junk := [] }

/-- A process in which `SSLKEYLOGFILE` names a file whose first `open` fails
and whose second `open` creates it, returning descriptor 3. -/
def world_flaky : World :=
  { keylog_file_fd := -1, SSLKEYLOGFILE := some "keys.log", open_results := [none, some 3],
    opened := none, file := [], trace := [], junk := [] }

/-- A process in which `SSLKEYLOGFILE` names a file that does not exist yet
and that `open` will create, returning descriptor 3. -/
def world_fresh : World :=
  { keylog_file_fd := -1, SSLKEYLOGFILE := some "keys.log", open_results := [some 3],
    opened := none, file := [], trace := [], junk := [] }

/-- A process that has the key-log file open on descriptor 3, the header
already in it. -/
def world_open : World :=
  { keylog_file_fd := 3, SSLKEYLOGFILE := some "keys.log", open_results := [],
    opened := some 3, file := FIRSTLINE, trace := [], junk := [] }

/-- The sixteen uppercase hexadecimal digits, in order of value. -/
def hex_digits : List Char := "0123456789ABCDEF".toList

/-- The spec's encoding of one byte: two uppercase hexadecimal digits, the
high nibble first. -/
def hex_of_byte (b : Nat) : List Nat :=
  [(hex_digits.getD (b / 16) '0').toNat, (hex_digits.getD (b % 16) '0').toNat]

/-- The spec's key-log line for a client random and a master secret: the
literal tag, the hex of the client random, one space, the hex of the secret,
a newline. -/
def key_log_line (cr ms : List Nat) : List Nat :=
  cstr "CLIENT_RANDOM " ++ cr.flatMap hex_of_byte ++ cstr " " ++ ms.flatMap hex_of_byte ++
    cstr "\n"

/-- The value of an uppercase hexadecimal digit given by its character code. -/
def hex_value (ch : Nat) : Nat :=
  if ch < 'A'.toNat then ch - '0'.toNat else ch - 'A'.toNat + 10

/-- Hex-decoding: every two digits give one byte. -/
def unhex : List Nat → List Nat
  | hi :: lo :: rest => (16 * hex_value hi + hex_value lo) :: unhex rest
  | _ => []

/-- Reading a key-log line back: the client random is decoded from the 64
characters after the tag, the secret from what stands between the following
space and the final newline. -/
def parse_line (line : List Nat) : List Nat × List Nat :=
  (unhex ((line.drop PREFIX_LEN).take (2 * SSL3_RANDOM_SIZE)),
   unhex ((line.drop (PREFIX_LEN + 2 * SSL3_RANDOM_SIZE + 1)).dropLast))

/-! ## The encoder writes what it should -/

theorem store_ok (buf : List Nat) (i v : Nat) (h : i < buf.length) :
    store buf i v = .ok (buf.take i ++ v :: buf.drop (i + 1)) := by
  simp [store, h, List.set_eq_take_append_cons_drop]

theorem store_oob (buf : List Nat) (i v : Nat) (h : buf.length ≤ i) :
    store buf i v = .error (.oobStore i buf.length) := by
  simp [store, Nat.not_lt.mpr h]

theorem load_ok (buf : List Nat) (i : Nat) (h : i < buf.length) :
    load buf i = .ok buf[i] := by
  simp [load, List.getElem?_eq_getElem h]

theorem take_glued {α : Type} (a b c : List α) (p q : Nat) (ha : a.length = p)
    (hb : b.length = q) : (a ++ b ++ c).take (p + q) = a ++ b := by
  subst ha; subst hb
  rw [← List.length_append]
  exact List.take_left' rfl

theorem drop_glued {α : Type} (a b c : List α) (p q m : Nat) (ha : a.length = p)
    (hb : b.length = q) : (a ++ b ++ c).drop (p + q + m) = c.drop m := by
  subst ha; subst hb
  rw [← List.length_append]
  exact List.drop_append m

theorem put_hex_ok (buffer : List Nat) (pos c : Nat) (h : pos + 1 < buffer.length) :
    put_hex buffer pos c = .ok (buffer.take pos ++ hex_pair c ++ buffer.drop (pos + 2)) := by
  have h1 : pos < buffer.length := by omega
  unfold put_hex
  simp only [store_ok buffer pos _ h1, bind, Except.bind]
  rw [store_ok _ (pos + 1) _ (by simp; omega)]
  congr 1
  simp only [hex_pair, List.append_assoc, List.cons_append, List.nil_append]
  rw [List.take_append_eq_append_take, List.drop_append_eq_append_drop]
  simp [List.take_take, Nat.min_eq_left (Nat.le_of_lt h1)]
  have e1 : pos + 1 - pos = 1 := by omega
  have e2 : pos + 2 - pos = 2 := by omega
  simp [e1, e2, Nat.min_eq_left (Nat.le_of_lt h1)]
  omega

theorem hex_pair_length (c : Nat) : (hex_pair c).length = 2 := rfl

theorem hex_loop_ok (src : List Nat) (k : Nat) :
    ∀ (i pos : Nat) (line : List Nat), i + k ≤ src.length → pos + 2 * k ≤ line.length →
      hex_loop src k i pos line =
        .ok (pos + 2 * k,
          line.take pos ++ ((src.drop i).take k).flatMap hex_pair ++ line.drop (pos + 2 * k)) := by
  induction k with
  | zero => intro i pos line _ _; simp [hex_loop]
  | succ k ih =>
    intro i pos line hi hp
    have hlt : i < src.length := by omega
    have hl : (List.take pos line).length = pos := by simp; omega
    unfold hex_loop
    simp only [load_ok src i hlt, bind, Except.bind]
    rw [put_hex_ok line pos _ (by omega)]
    simp only []
    rw [ih (i + 1) (pos + 2) _ (by omega) (by simp [hex_pair_length]; omega)]
    rw [List.drop_eq_getElem_cons hlt, take_glued _ _ _ pos 2 hl (hex_pair_length _),
      drop_glued _ _ _ pos 2 (2 * k) hl (hex_pair_length _), List.drop_drop]
    have e3 : pos + 2 + 2 * k = pos + 2 * (k + 1) := by omega
    have e4 : pos + 2 + 2 * k = 2 * k + (pos + 2) := by omega
    rw [← e3]
    congr 2
    simp only [List.take_succ_cons, List.flatMap_cons, List.append_assoc, e4]

theorem flatMap_hex_pair_length (l : List Nat) : (l.flatMap hex_pair).length = 2 * l.length := by
  induction l with
  | nil => rfl
  | cons c l ih =>
    rw [List.flatMap_cons, List.length_append, ih, hex_pair_length, List.length_cons,
      Nat.mul_succ, Nat.add_comm]

theorem store_app (a r : List Nat) (pos v : Nat) (ha : a.length = pos) (hr : 0 < r.length) :
    store (a ++ r) pos v = .ok (a ++ [v] ++ r.drop 1) := by
  subst ha
  rw [store_ok _ _ _ (by simp; omega)]
  simp [List.take_left' rfl]

theorem hex_loop_app (src a r : List Nat) (k pos : Nat) (ha : a.length = pos)
    (hk : k ≤ src.length) (hr : 2 * k ≤ r.length) :
    hex_loop src k 0 pos (a ++ r) =
      .ok (pos + 2 * k, a ++ (src.take k).flatMap hex_pair ++ r.drop (2 * k)) := by
  subst ha
  rw [hex_loop_ok src k 0 a.length (a ++ r) (by omega) (by simp; omega)]
  simp [List.take_left' rfl]

theorem uninit_length (w : World) (n : Nat) : (uninit w n).length = n := by
  simp [uninit]

theorem PREFIX_LEN_eq : PREFIX_LEN = 14 := by decide

theorem memcpy_ok (dst src : List Nat) (n : Nat) (hs : n ≤ src.length) (hd : n ≤ dst.length) :
    memcpy dst src n = .ok (src.take n ++ dst.drop n) := by
  simp [memcpy, Nat.not_lt.mpr hs, Nat.not_lt.mpr hd]

theorem dump_to_fd_ok (fd : Int) (client_random master_key : List Nat) (master_key_length : Int)
    (w : World) (hcr : SSL3_RANDOM_SIZE ≤ client_random.length)
    (hmk : master_key_length.toNat ≤ master_key.length)
    (hlen : master_key_length ≤ (SSL_MAX_MASTER_KEY_LENGTH : Int)) :
    dump_to_fd fd client_random master_key master_key_length w =
      .ok (sys_write fd (log_line client_random master_key master_key_length.toNat) w) := by
  have hn : master_key_length.toNat ≤ 48 := by
    have : ((SSL_MAX_MASTER_KEY_LENGTH : Nat) : Int) = 48 := rfl
    omega
  unfold dump_to_fd log_line
  generalize master_key_length.toNat = n at hn hmk ⊢
  have hP : PREFIX.length = 14 := PREFIX_LEN_eq
  have hA : ((client_random.take 32).flatMap hex_pair).length = 64 := by
    rw [flatMap_hex_pair_length, List.length_take]
    have : 32 ≤ client_random.length := hcr
    omega
  have hB : ((master_key.take n).flatMap hex_pair).length = 2 * n := by
    rw [flatMap_hex_pair_length, List.length_take]; omega
  have hU : (uninit w 176).length = 176 := uninit_length w 176
  simp only [SSL3_RANDOM_SIZE, SSL_MAX_MASTER_KEY_LENGTH, PREFIX_LEN, hP] at hcr ⊢
  have h0 : memcpy (uninit w (14 + 2 * 32 + 1 + 2 * 48 + 1)) PREFIX 14 =
      .ok (PREFIX ++ (uninit w 176).drop 14) := by
    have hT : List.take 14 PREFIX = PREFIX := by rw [← hP, List.take_length]
    rw [memcpy_ok _ _ _ (by omega) (by rw [uninit_length]; omega), hT]
  simp only [h0, bind, Except.bind]
  rw [hex_loop_app client_random PREFIX _ 32 14 hP hcr (by rw [List.length_drop, hU]; omega)]
  simp only []
  rw [store_app _ _ (14 + 2 * 32) _ (by rw [List.length_append, hP, hA])
    (by rw [List.length_drop, List.length_drop, hU]; omega)]
  simp only []
  rw [hex_loop_app master_key _ _ n (14 + 2 * 32 + 1)
    (by simp only [List.length_append, hP, hA, List.length_cons, List.length_nil]) hmk
    (by simp only [List.length_drop, hU]; omega)]
  simp only []
  rw [store_app _ _ (14 + 2 * 32 + 1 + 2 * n) _
    (by simp only [List.length_append, hP, hA, hB, List.length_cons, List.length_nil])
    (by simp only [List.length_drop, hU]; omega)]
  simp only []
  rw [if_neg (by
    simp only [List.length_append, hP, hA, hB, List.length_cons, List.length_nil,
      List.length_drop, hU]
    omega)]
  congr 2
  exact List.take_left' (by
    simp only [List.length_append, hP, hA, hB, List.length_cons, List.length_nil])

set_option maxRecDepth 100000 in
theorem hex_pair_eq_hex_of_byte : ∀ c, c < 256 → hex_pair c = hex_of_byte c := by
  decide

set_option maxRecDepth 100000 in
theorem hex_pair_decodes : ∀ c, c < 256 →
    (∀ ch ∈ hex_pair c, ch ∈ hex_digits.map Char.toNat) ∧ unhex (hex_pair c) = [c] := by
  decide

theorem flatMap_hex_pair_eq (l : List Nat) (hl : ∀ b ∈ l, b < 256) :
    l.flatMap hex_pair = l.flatMap hex_of_byte := by
  induction l with
  | nil => rfl
  | cons c l ih =>
    rw [List.flatMap_cons, List.flatMap_cons, ih (fun b hb => hl b (List.mem_cons_of_mem _ hb)),
      hex_pair_eq_hex_of_byte c (hl c (List.mem_cons_self _ _))]

theorem unhex_flatMap_hex_pair (l : List Nat) (hl : ∀ b ∈ l, b < 256) :
    unhex (l.flatMap hex_pair) = l := by
  induction l with
  | nil => rfl
  | cons c l ih =>
    have hc := (hex_pair_decodes c (hl c (List.mem_cons_self _ _))).2
    rw [List.flatMap_cons]
    simp only [hex_pair, List.cons_append, List.nil_append, unhex, List.cons.injEq,
      and_true] at hc ⊢
    exact ⟨hc, ih (fun b hb => hl b (List.mem_cons_of_mem _ hb))⟩

theorem log_line_eq_key_log_line (cr ms : List Nat) (hcr : cr.length = 32)
    (hcrb : ∀ b ∈ cr, b < 256) (hmsb : ∀ b ∈ ms, b < 256) :
    log_line cr ms ms.length = key_log_line cr ms := by
  unfold log_line key_log_line
  have h1 : cr.take SSL3_RANDOM_SIZE = cr :=
    List.take_of_length_le (by rw [hcr]; exact Nat.le_refl 32)
  rw [h1, List.take_length, flatMap_hex_pair_eq cr hcrb, flatMap_hex_pair_eq ms hmsb]
  rfl

theorem parse_log_line (cr ms : List Nat) (hcr : cr.length = 32)
    (hcrb : ∀ b ∈ cr, b < 256) (hmsb : ∀ b ∈ ms, b < 256) :
    parse_line (log_line cr ms ms.length) = (cr, ms) := by
  have hP : PREFIX.length = 14 := PREFIX_LEN_eq
  have h1 : cr.take SSL3_RANDOM_SIZE = cr :=
    List.take_of_length_le (by rw [hcr]; exact Nat.le_refl 32)
  have hA : (cr.flatMap hex_pair).length = 2 * 32 := by
    rw [flatMap_hex_pair_length, hcr]
  unfold parse_line log_line
  rw [h1, List.take_length]
  simp only [PREFIX_LEN, SSL3_RANDOM_SIZE, hP]
  have e1 : List.take (2 * 32) (List.drop 14 (PREFIX ++ cr.flatMap hex_pair ++ [' '.toNat] ++
      ms.flatMap hex_pair ++ ['\n'.toNat])) = cr.flatMap hex_pair := by
    simp only [List.append_assoc]
    rw [List.drop_left' hP, List.take_left' hA]
  have e2 : List.dropLast (List.drop (14 + 2 * 32 + 1) (PREFIX ++ cr.flatMap hex_pair ++
      [' '.toNat] ++ ms.flatMap hex_pair ++ ['\n'.toNat])) = ms.flatMap hex_pair := by
    have hl : (PREFIX ++ cr.flatMap hex_pair ++ [' '.toNat]).length = 14 + 2 * 32 + 1 := by
      simp only [List.length_append, hP, hA, List.length_cons, List.length_nil]
    rw [List.append_assoc (PREFIX ++ cr.flatMap hex_pair ++ [' '.toNat]), List.drop_left' hl,
      List.dropLast_concat]
  rw [e1, e2, unhex_flatMap_hex_pair cr hcrb, unhex_flatMap_hex_pair ms hmsb]

theorem hex_loop_oob (src : List Nat) (k : Nat) :
    ∀ (i pos : Nat) (line : List Nat), i + k ≤ src.length → pos ≤ line.length →
      line.length < pos + 2 * k →
      hex_loop src k i pos line = .error (.oobStore line.length line.length) := by
  induction k with
  | zero => intro i pos line _ h1 h2; omega
  | succ k ih =>
    intro i pos line hi hp hlt
    have hsrc : i < src.length := by omega
    unfold hex_loop
    simp only [load_ok src i hsrc, bind, Except.bind]
    by_cases h1 : pos + 1 < line.length
    · rw [put_hex_ok line pos _ h1]
      simp only []
      have hl : (List.take pos line ++ hex_pair src[i] ++ List.drop (pos + 2) line).length =
          line.length := by
        simp only [List.length_append, List.length_take, List.length_drop, hex_pair_length]
        omega
      rw [ih (i + 1) (pos + 2) _ (by omega) (by rw [hl]; omega) (by rw [hl]; omega), hl]
    · unfold put_hex
      simp only [bind, Except.bind]
      by_cases h2 : pos < line.length
      · have h3 : pos + 1 = line.length := by omega
        rw [store_ok line pos _ h2]
        simp only []
        have hl : (List.take pos line ++ (if (src[i] % 256) >>> 4 < 10 then
            '0'.toNat + (src[i] % 256) >>> 4 else 'A'.toNat + (src[i] % 256) >>> 4 - 10) ::
            List.drop (pos + 1) line).length = line.length := by
          simp only [List.length_append, List.length_take, List.length_drop, List.length_cons]
          omega
        rw [store_oob _ (pos + 1) _ (by rw [hl]; omega), hl, h3]
      · have h3 : pos = line.length := by omega
        rw [store_oob line pos _ (by omega), h3]

theorem dump_to_fd_overflow (fd : Int) (client_random master_key : List Nat)
    (master_key_length : Int) (w : World) (hcr : SSL3_RANDOM_SIZE ≤ client_random.length)
    (hmk : master_key_length.toNat ≤ master_key.length)
    (hlen : (SSL_MAX_MASTER_KEY_LENGTH : Int) < master_key_length) :
    dump_to_fd fd client_random master_key master_key_length w = .error (.oobStore 176 176) := by
  have hn : 48 < master_key_length.toNat := by
    have : ((SSL_MAX_MASTER_KEY_LENGTH : Nat) : Int) = 48 := rfl
    omega
  unfold dump_to_fd
  generalize master_key_length.toNat = n at hn hmk ⊢
  have hP : PREFIX.length = 14 := PREFIX_LEN_eq
  have hA : ((client_random.take 32).flatMap hex_pair).length = 64 := by
    rw [flatMap_hex_pair_length, List.length_take]
    have : 32 ≤ client_random.length := hcr
    omega
  have hU : (uninit w 176).length = 176 := uninit_length w 176
  simp only [SSL3_RANDOM_SIZE, SSL_MAX_MASTER_KEY_LENGTH, PREFIX_LEN, hP] at hcr ⊢
  have h0 : memcpy (uninit w (14 + 2 * 32 + 1 + 2 * 48 + 1)) PREFIX 14 =
      .ok (PREFIX ++ (uninit w 176).drop 14) := by
    have hT : List.take 14 PREFIX = PREFIX := by rw [← hP, List.take_length]
    rw [memcpy_ok _ _ _ (by omega) (by rw [uninit_length]; omega), hT]
  simp only [h0, bind, Except.bind]
  rw [hex_loop_app client_random PREFIX _ 32 14 hP hcr (by rw [List.length_drop, hU]; omega)]
  simp only []
  rw [store_app _ _ (14 + 2 * 32) _ (by rw [List.length_append, hP, hA])
    (by rw [List.length_drop, List.length_drop, hU]; omega)]
  simp only []
  have hL : (PREFIX ++ (List.take 32 client_random).flatMap hex_pair ++ [' '.toNat] ++
      List.drop 1 (List.drop (2 * 32) (List.drop 14 (uninit w 176)))).length = 176 := by
    simp only [List.length_append, hP, hA, List.length_cons, List.length_nil, List.length_drop, hU]
  rw [hex_loop_oob master_key n 0 (14 + 2 * 32 + 1) _ (by omega) (by rw [hL]; omega)
    (by rw [hL]; omega), hL]

theorem sys_write_trace (fd : Int) (bytes : List Nat) (w : World) :
    (sys_write fd bytes w).trace = w.trace ++ [.write fd bytes] := rfl

theorem log_line_length (cr mk : List Nat) (n : Nat) (hcr : SSL3_RANDOM_SIZE ≤ cr.length)
    (hmk : n ≤ mk.length) : (log_line cr mk n).length = 80 + 2 * n := by
  have hP : PREFIX.length = 14 := PREFIX_LEN_eq
  have hcr' : 32 ≤ cr.length := hcr
  unfold log_line
  simp only [List.length_append, hP, flatMap_hex_pair_length, List.length_take,
    List.length_cons, List.length_nil, SSL3_RANDOM_SIZE]
  omega

/-- C1: for a 32-byte client random and a master secret of at most 48 bytes,
`dump_to_fd` makes exactly one `write` call, and its bytes are the tag
`CLIENT_RANDOM `, the 64 uppercase hex digits of the client random (high nibble
first), a space, the hex digits of the secret and a newline; for the client
random 0x01..0x20 and the secret 0xAA 0xBB that is the line of the spec. -/
theorem dump_to_fd_writes_key_log_line (fd : Int) (cr ms : List Nat) (w : World)
    (hcr : cr.length = 32) (hms : ms.length ≤ 48)
    (hcrb : ∀ b ∈ cr, b < 256) (hmsb : ∀ b ∈ ms, b < 256) :
    dump_to_fd fd cr ms (ms.length : Int) w = .ok (sys_write fd (key_log_line cr ms) w) ∧
    (sys_write fd (key_log_line cr ms) w).trace =
      w.trace ++ [Syscall.write fd (key_log_line cr ms)] ∧
    dump_to_fd fd (List.range' 1 32) [0xAA, 0xBB] 2 w = .ok (sys_write fd (cstr
      "CLIENT_RANDOM 0102030405060708090A0B0C0D0E0F101112131415161718191A1B1C1D1E1F20 AABB\n")
      w) := by
  refine ⟨?_, rfl, ?_⟩
  · rw [dump_to_fd_ok fd cr ms _ w (by rw [hcr]; decide) (by simp)
      (by simp only [SSL_MAX_MASTER_KEY_LENGTH]; omega)]
    rw [Int.toNat_ofNat, log_line_eq_key_log_line cr ms hcr hcrb hmsb]
  · rw [dump_to_fd_ok fd _ _ 2 w (by decide) (by decide) (by decide)]
    congr 1

theorem dump_to_fd_writes_key_log_line_witness :
    (List.replicate 32 0x5A).length = 32 ∧ [1, 2, 3].length ≤ 48 ∧
    dump_to_fd 3 (List.replicate 32 0x5A) [1, 2, 3] 3
      { keylog_file_fd := 3, SSLKEYLOGFILE := none, open_results := [], opened := some 3,
        file := [], trace := [], junk := [] } =
      .ok (sys_write 3 (key_log_line (List.replicate 32 0x5A) [1, 2, 3])
        { keylog_file_fd := 3, SSLKEYLOGFILE := none, open_results := [], opened := some 3,
          file := [], trace := [], junk := [] }) :=
  ⟨by decide, by decide,
    (dump_to_fd_writes_key_log_line 3 (List.replicate 32 0x5A) [1, 2, 3] _ (by decide)
      (by decide) (by decide) (by decide)).1⟩

/-- C9: the line buffer of `dump_to_fd` has 14 + 64 + 1 + 96 + 1 = 176 cells;
for a key length between 0 and 48 no store leaves the buffer (the encoder
runs to its `write` without a fault) and `write` gets exactly
80 + 2 * master_key_length bytes, at most 176; for a key length of 49 (and
any larger one) the encoder stores at index 176, past the end. -/
theorem dump_to_fd_buffer_bounds (fd : Int) (client_random master_key : List Nat)
    (master_key_length : Int) (w : World) (hcr : SSL3_RANDOM_SIZE ≤ client_random.length)
    (hmk : master_key_length.toNat ≤ master_key.length) :
    PREFIX_LEN + 2 * SSL3_RANDOM_SIZE + 1 + 2 * SSL_MAX_MASTER_KEY_LENGTH + 1 = 176 ∧
    (0 ≤ master_key_length → master_key_length ≤ 48 →
      ∃ bytes, dump_to_fd fd client_random master_key master_key_length w =
          .ok (sys_write fd bytes w) ∧
        (bytes.length : Int) = 80 + 2 * master_key_length ∧ bytes.length ≤ 176) ∧
    (49 ≤ master_key_length →
      dump_to_fd fd client_random master_key master_key_length w =
        .error (.oobStore 176 176)) := by
  refine ⟨by decide, ?_, ?_⟩
  · intro h0 h48
    refine ⟨log_line client_random master_key master_key_length.toNat,
      dump_to_fd_ok fd client_random master_key master_key_length w hcr hmk
        (by simp only [SSL_MAX_MASTER_KEY_LENGTH]; omega), ?_, ?_⟩
    · rw [log_line_length _ _ _ hcr hmk]; omega
    · rw [log_line_length _ _ _ hcr hmk]; omega
  · intro h49
    exact dump_to_fd_overflow fd client_random master_key master_key_length w hcr hmk
      (by simp only [SSL_MAX_MASTER_KEY_LENGTH]; omega)

theorem dump_to_fd_buffer_bounds_witness :
    SSL3_RANDOM_SIZE ≤ (List.replicate 32 7).length ∧
    (49 : Int).toNat ≤ (List.replicate 49 255).length ∧
    dump_to_fd 3 (List.replicate 32 7) (List.replicate 49 255) 49
      { keylog_file_fd := 3, SSLKEYLOGFILE := none, open_results := [], opened := some 3,
        file := [], trace := [], junk := [] } = .error (.oobStore 176 176) :=
  ⟨by decide, by decide,
    (dump_to_fd_buffer_bounds 3 (List.replicate 32 7) (List.replicate 49 255) 49 _
      (by decide) (by decide)).2.2 (by decide)⟩

/-- C10: the line encoding loses nothing. `put_hex` stores for each byte two
characters out of `0123456789ABCDEF` whose hexadecimal value is that byte; the
line `dump_to_fd` writes for a 32-byte client random and a secret of at most
48 bytes decodes to that client random and that secret; so two such inputs
that make `dump_to_fd` write the same line are equal. -/
theorem dump_to_fd_lossless (fd : Int) (cr1 ms1 cr2 ms2 : List Nat) (w : World)
    (hcr1 : cr1.length = 32) (hms1 : ms1.length ≤ 48)
    (hcr2 : cr2.length = 32) (hms2 : ms2.length ≤ 48)
    (hb1 : ∀ b ∈ cr1 ++ ms1, b < 256) (hb2 : ∀ b ∈ cr2 ++ ms2, b < 256) :
    (∀ (buffer : List Nat) (pos c : Nat), c < 256 → pos + 1 < buffer.length →
      ∃ hi lo, put_hex buffer pos c =
          .ok (buffer.take pos ++ [hi, lo] ++ buffer.drop (pos + 2)) ∧
        hi ∈ hex_digits.map Char.toNat ∧ lo ∈ hex_digits.map Char.toNat ∧
        16 * hex_value hi + hex_value lo = c) ∧
    (∃ line, dump_to_fd fd cr1 ms1 (ms1.length : Int) w = .ok (sys_write fd line w) ∧
      parse_line line = (cr1, ms1)) ∧
    (dump_to_fd fd cr1 ms1 (ms1.length : Int) w = dump_to_fd fd cr2 ms2 (ms2.length : Int) w →
      cr1 = cr2 ∧ ms1 = ms2) := by
  have hd : ∀ (cr ms : List Nat), cr.length = 32 → ms.length ≤ 48 →
      dump_to_fd fd cr ms (ms.length : Int) w = .ok (sys_write fd (log_line cr ms ms.length) w) := by
    intro cr ms hcr hms
    rw [dump_to_fd_ok fd cr ms _ w (by rw [hcr]; decide) (by simp)
      (by simp only [SSL_MAX_MASTER_KEY_LENGTH]; omega), Int.toNat_ofNat]
  have hp : ∀ (cr ms : List Nat), cr.length = 32 → (∀ b ∈ cr ++ ms, b < 256) →
      parse_line (log_line cr ms ms.length) = (cr, ms) := by
    intro cr ms hcr hb
    exact parse_log_line cr ms hcr (fun b h => hb b (List.mem_append_left _ h))
      (fun b h => hb b (List.mem_append_right _ h))
  refine ⟨?_, ⟨_, hd cr1 ms1 hcr1 hms1, hp cr1 ms1 hcr1 hb1⟩, ?_⟩
  · intro buffer pos c hc hpos
    have h := hex_pair_decodes c hc
    refine ⟨_, _, put_hex_ok buffer pos c hpos, h.1 _ (List.mem_cons_self _ _),
      h.1 _ (List.mem_cons_of_mem _ (List.mem_cons_self _ _)), ?_⟩
    have h2 := h.2
    simp only [hex_pair, unhex, List.cons.injEq, and_true] at h2
    exact h2
  · intro heq
    rw [hd cr1 ms1 hcr1 hms1, hd cr2 ms2 hcr2 hms2] at heq
    have ht : (sys_write fd (log_line cr1 ms1 ms1.length) w).trace =
        (sys_write fd (log_line cr2 ms2 ms2.length) w).trace := by
      rw [Except.ok.inj heq]
    simp only [sys_write_trace, List.append_cancel_left_eq, List.cons.injEq, and_true,
      Syscall.write.injEq, true_and] at ht
    have h1 := hp cr1 ms1 hcr1 hb1
    rw [ht, hp cr2 ms2 hcr2 hb2] at h1
    exact ⟨(Prod.mk.inj h1).1.symm, (Prod.mk.inj h1).2.symm⟩

theorem dump_to_fd_lossless_witness :
    (List.replicate 32 0x5A).length = 32 ∧ [0xAA, 0xBB].length ≤ 48 ∧
    ∃ line, dump_to_fd 3 (List.replicate 32 0x5A) [0xAA, 0xBB] 2
      { keylog_file_fd := 3, SSLKEYLOGFILE := none, open_results := [], opened := some 3,
        file := [], trace := [], junk := [] } =
        .ok (sys_write 3 line
          { keylog_file_fd := 3, SSLKEYLOGFILE := none, open_results := [], opened := some 3,
            file := [], trace := [], junk := [] }) ∧
      parse_line line = (List.replicate 32 0x5A, [0xAA, 0xBB]) :=
  ⟨by decide, by decide,
    (dump_to_fd_lossless 3 (List.replicate 32 0x5A) [0xAA, 0xBB] (List.replicate 32 0x5A)
      [0xAA, 0xBB] _ (by decide) (by decide) (by decide) (by decide) (by decide)
      (by decide)).2.1⟩

/-! ## The interception layer -/

theorem lookup_of_resolves {H : Type} (hst : Host H) (sym : String)
    (h : resolves hst sym = true) : ∃ func, lookup_symbol hst sym = .ok func := by
  unfold resolves at h
  cases hl : lookup_symbol hst sym with
  | ok func => exact ⟨func, rfl⟩
  | error e => rw [hl] at h; simp at h

theorem memcmp_spec : ∀ (n : Nat) (a b : List Nat), n ≤ a.length → n ≤ b.length →
    ∃ r, memcmp a b n = .ok r ∧ (r = 0 ↔ a.take n = b.take n) := by
  intro n
  induction n with
  | zero => intro a b _ _; exact ⟨0, by simp [memcmp], by simp⟩
  | succ n ih =>
    intro a b ha hb
    cases a with
    | nil => simp at ha
    | cons x as =>
      cases b with
      | nil => simp at hb
      | cons y bs =>
        simp only [List.length_cons, Nat.add_le_add_iff_right] at ha hb
        by_cases hxy : x = y
        · obtain ⟨r, hr, hiff⟩ := ih as bs ha hb
          refine ⟨r, ?_, ?_⟩
          · simp [memcmp, hxy, hr]
          · simp [hxy, hiff]
        · refine ⟨(x : Int) - (y : Int), ?_, ?_⟩
          · simp [memcmp, hxy]
          · simp only [List.take_succ_cons, List.cons.injEq, hxy, false_and, iff_false]
            omega

theorem ssl_get_session_ok {H : Type} (hst : Host H) (h : H) (ssl : Int)
    (hacc : accessors_resolve hst) :
    ssl_get_session hst h ssl = .ok (hst.ssl_at h ssl).session := by
  unfold ssl_get_session
  cases hm : hst.modern with
  | false => simp [pure, Except.pure]
  | true =>
    obtain ⟨func, hf⟩ := lookup_of_resolves hst _ (hacc hm).1
    simp [hf, bind, Except.bind, pure, Except.pure]

theorem copy_master_secret_ok {H : Type} (hst : Host H) (session : SSL_SESSION)
    (out : List Nat) (hacc : accessors_resolve hst)
    (h0 : 0 ≤ session.master_key_length)
    (h48 : session.master_key_length ≤ (SSL_MAX_MASTER_KEY_LENGTH : Int))
    (hkey : session.master_key.length = SSL_MAX_MASTER_KEY_LENGTH)
    (hout : out.length = SSL_MAX_MASTER_KEY_LENGTH) :
    copy_master_secret hst session out 0 =
      .ok (session.master_key.take session.master_key_length.toNat ++
        out.drop session.master_key_length.toNat, session.master_key_length) := by
  have hc : ((SSL_MAX_MASTER_KEY_LENGTH : Nat) : Int) = 48 := rfl
  have hn : session.master_key_length.toNat ≤ 48 := by omega
  have hcast : ((session.master_key_length.toNat : Nat) : Int) = session.master_key_length :=
    Int.toNat_of_nonneg h0
  unfold copy_master_secret
  cases hm : hst.modern with
  | false =>
    simp only [Bool.false_eq_true, if_false]
    by_cases hpos : session.master_key_length > 0
    · rw [if_pos hpos, memcpy_ok _ _ _ (by rw [hkey]; exact hn) (by rw [hout]; exact hn)]
      rfl
    · have hz : session.master_key_length = 0 := by omega
      rw [if_neg hpos, hz]
      simp [pure, Except.pure]
  | true =>
    obtain ⟨func, hf⟩ := lookup_of_resolves hst _ (hacc hm).2.1
    simp only [if_true, hf, bind, Except.bind, SSL_SESSION_get_master_key,
      SSL_MAX_MASTER_KEY_LENGTH, pure, Except.pure]
    have hlen : (if 48 > session.master_key_length.toNat then session.master_key_length.toNat
        else 48) = session.master_key_length.toNat := by
      split <;> omega
    rw [hlen, if_neg (by decide),
      memcpy_ok _ _ _ (by rw [hkey]; exact hn) (by rw [hout]; exact hn)]
    simp only [hcast]

theorem ssl_tap_state_init_ok {H : Type} (hst : Host H) (h : H) (ssl : Int)
    (hacc : accessors_resolve hst) (hwf : (hst.ssl_at h ssl).wf hst.modern) :
    ssl_tap_state_init hst h ssl = .ok (snapshot (hst.ssl_at h ssl)) := by
  unfold ssl_tap_state_init snapshot
  rw [ssl_get_session_ok hst h ssl hacc]
  simp only [bind, Except.bind]
  cases hs : (hst.ssl_at h ssl).session with
  | none => rfl
  | some session =>
    have hw := hwf.1
    rw [hs] at hw
    simp only []
    rw [copy_master_secret_ok hst session _ hacc hw.1 hw.2.1 hw.2.2.1 (by simp)]
    rfl

theorem copy_client_random_ok {H : Type} (hst : Host H) (h : H) (ssl : Int) (w : World)
    (session : SSL_SESSION) (hacc : accessors_resolve hst)
    (hwf : (hst.ssl_at h ssl).wf hst.modern)
    (hs : (hst.ssl_at h ssl).session = some session) (hpos : 0 < session.master_key_length) :
    copy_client_random hst h ssl (uninit w SSL3_RANDOM_SIZE) =
      .ok (seen_client_random (hst.ssl_at h ssl) w) := by
  have hw1 := hwf.1
  have hw2 := hwf.2
  rw [hs] at hw1
  unfold copy_client_random seen_client_random
  cases hm : hst.modern with
  | false =>
    simp only [Bool.false_eq_true, if_false]
    cases h3 : (hst.ssl_at h ssl).s3 with
    | none => rfl
    | some r =>
      rw [h3] at hw2
      simp only [] at hw2 ⊢
      rw [memcpy_ok _ _ _ (by rw [hw2]) (by rw [uninit_length]),
        List.drop_of_length_le (by rw [uninit_length]), List.append_nil,
        List.take_of_length_le (by rw [hw2])]
  | true =>
    obtain ⟨func, hf⟩ := lookup_of_resolves hst _ (hacc hm).2.2
    have hsome := hw1.2.2.2 hm hpos
    cases h3 : (hst.ssl_at h ssl).s3 with
    | none => rw [h3] at hsome; simp at hsome
    | some r =>
      rw [h3] at hw2
      simp only [] at hw2
      simp only [if_true, hf, bind, Except.bind, SSL_get_client_random, h3, pure, Except.pure,
        hw2, SSL3_RANDOM_SIZE]
      rw [if_neg (by decide), if_neg (by decide),
        memcpy_ok _ _ _ (by rw [hw2]; decide) (by rw [uninit_length])]
      simp only []
      rw [List.drop_of_length_le (by rw [uninit_length]), List.append_nil,
        List.take_of_length_le (by rw [hw2]; decide)]

theorem secret_of_session (s : SSL) (session : SSL_SESSION) (hs : s.session = some session) :
    s.secret = session.master_key.take session.master_key_length.toNat := by
  simp [SSL.secret, hs]

theorem log_line_take (cr mk rest : List Nat) (n : Nat) (hn : n ≤ mk.length) :
    log_line cr (mk.take n ++ rest) n = log_line cr (mk.take n) (mk.take n).length := by
  unfold log_line
  have h1 : (mk.take n).length = n := by rw [List.length_take]; omega
  rw [List.take_left' h1, List.take_length]

theorem tap_ssl_key_spec {H : Type} (hst : Host H) (h : H) (ssl : Int)
    (state : ssl_tap_state_t) (w : World) (hacc : accessors_resolve hst)
    (hwf : (hst.ssl_at h ssl).wf hst.modern) (hstate : state.wf) :
    tap_ssl_key hst h ssl state w =
      .ok (if (hst.ssl_at h ssl).secret = [] then w
        else if state.secret = (hst.ssl_at h ssl).secret then w
        else log_key (hst.ssl_at h ssl) w) := by
  have hc : ((SSL_MAX_MASTER_KEY_LENGTH : Nat) : Int) = 48 := rfl
  have hc2 : SSL_MAX_MASTER_KEY_LENGTH = 48 := rfl
  unfold tap_ssl_key
  rw [ssl_get_session_ok hst h ssl hacc]
  simp only [bind, Except.bind]
  cases hs : (hst.ssl_at h ssl).session with
  | none =>
    have hsec : (hst.ssl_at h ssl).secret = [] := by simp [SSL.secret, hs]
    simp [hsec, pure, Except.pure]
  | some session =>
    have hw := hwf.1
    rw [hs] at hw
    obtain ⟨h0, h48, hkey, _⟩ := hw
    have hsec := secret_of_session _ _ hs
    have hn : session.master_key_length.toNat ≤ 48 := by omega
    simp only []
    rw [copy_master_secret_ok hst session _ hacc h0 h48 hkey (uninit_length w _)]
    simp only []
    by_cases hpos : session.master_key_length > 0
    · have hne : (hst.ssl_at h ssl).secret ≠ [] := by
        rw [hsec]
        intro hnil
        have := congrArg List.length hnil
        rw [List.length_take, hkey, hc2] at this
        simp at this
        omega
      have hcr : SSL3_RANDOM_SIZE ≤ (seen_client_random (hst.ssl_at h ssl) w).length := by
        have hw2 := hwf.2
        unfold seen_client_random
        cases h3 : (hst.ssl_at h ssl).s3 with
        | none => simp only []; rw [uninit_length]
        | some r => rw [h3] at hw2; simp only [] at hw2 ⊢; rw [hw2]
      have hlog : (if (init_keylog_file w).keylog_file_fd ≥ 0 then
            dump_to_fd (init_keylog_file w).keylog_file_fd
              (seen_client_random (hst.ssl_at h ssl) w)
              (session.master_key.take session.master_key_length.toNat ++
                (uninit w SSL_MAX_MASTER_KEY_LENGTH).drop session.master_key_length.toNat)
              session.master_key_length (init_keylog_file w)
          else Except.ok (init_keylog_file w)) = .ok (log_key (hst.ssl_at h ssl) w) := by
        unfold log_key log_step
        by_cases hfd : (init_keylog_file w).keylog_file_fd ≥ 0
        · rw [if_pos hfd, dump_to_fd_ok _ _ _ _ _ hcr
            (by simp only [List.length_append, List.length_take, List.length_drop, hkey,
                  uninit_length, hc2]; omega) h48,
            log_line_take _ _ _ _ (by rw [hkey, hc2]; exact hn), hsec]
          simp only [if_pos hfd]
        · rw [if_neg hfd]
          simp only [if_neg hfd]
      rw [if_pos hpos, copy_client_random_ok hst h ssl w session hacc hwf hs hpos]
      simp only [pure, Except.pure, if_pos hpos, if_neg hne]
      by_cases heq : state.master_key_length = session.master_key_length
      · obtain ⟨r, hr, hiff⟩ := memcmp_spec session.master_key_length.toNat state.master_key
          (session.master_key.take session.master_key_length.toNat ++
            (uninit w SSL_MAX_MASTER_KEY_LENGTH).drop session.master_key_length.toNat)
          (by rw [hstate.2.2, hc2]; exact hn)
          (by simp only [List.length_append, List.length_take, List.length_drop, hkey,
                uninit_length, hc2]; omega)
        have hl : (session.master_key.take session.master_key_length.toNat).length =
            session.master_key_length.toNat := by
          rw [List.length_take, hkey, hc2]; omega
        rw [List.take_left' hl] at hiff
        have hsame : state.secret = (hst.ssl_at h ssl).secret ↔ r = 0 := by
          rw [hiff, hsec, ssl_tap_state_t.secret, heq]
        rw [if_pos heq, hr]
        simp only []
        by_cases hr0 : r = 0
        · simp [hr0, hsame.2 hr0]
        · have hdiff : ¬ state.secret = (hst.ssl_at h ssl).secret := fun hh => hr0 (hsame.1 hh)
          simp only [hr0, decide_False, Bool.false_eq_true, if_false, if_neg hdiff]
          exact hlog
      · have hdiff : ¬ state.secret = (hst.ssl_at h ssl).secret := by
          intro hh
          have hlen := congrArg List.length hh
          rw [hsec, ssl_tap_state_t.secret, List.length_take, List.length_take, hkey,
            hstate.2.2, hc2] at hlen
          have := hstate.1
          have := hstate.2.1
          omega
        rw [if_neg heq]
        simp only [Bool.false_eq_true, if_false, if_neg hdiff]
        exact hlog
    · have hz : session.master_key_length.toNat = 0 := by omega
      have hnil : (hst.ssl_at h ssl).secret = [] := by rw [hsec, hz, List.take_zero]
      simp only [if_neg hpos, pure, Except.pure, if_pos hnil]

theorem snapshot_wf (modern : Bool) (s : SSL) (hwf : s.wf modern) : (snapshot s).wf := by
  have hc2 : SSL_MAX_MASTER_KEY_LENGTH = 48 := rfl
  have hc : ((SSL_MAX_MASTER_KEY_LENGTH : Nat) : Int) = 48 := rfl
  unfold snapshot ssl_tap_state_t.wf
  cases hs : s.session with
  | none => simp [hc2]
  | some session =>
    have hw := hwf.1
    rw [hs] at hw
    obtain ⟨h0, h48, hkey, _⟩ := hw
    refine ⟨h0, h48, ?_⟩
    simp only [List.length_append, List.length_take, List.length_drop, hkey,
      List.length_replicate, hc2]
    omega

theorem snapshot_secret (modern : Bool) (s : SSL) (hwf : s.wf modern) :
    (snapshot s).secret = s.secret := by
  have hc2 : SSL_MAX_MASTER_KEY_LENGTH = 48 := rfl
  have hc : ((SSL_MAX_MASTER_KEY_LENGTH : Nat) : Int) = 48 := rfl
  unfold snapshot ssl_tap_state_t.secret SSL.secret
  cases hs : s.session with
  | none => simp
  | some session =>
    have hw := hwf.1
    rw [hs] at hw
    obtain ⟨h0, h48, hkey, _⟩ := hw
    simp only []
    exact List.take_left' (by rw [List.length_take, hkey, hc2]; omega)

/-- What an intercepted call leaves of the world `w` when the session object
was `s` before the real call and is `s1` after it. -/
theorem intercepted_spec {H : Type} (hst : Host H) (ssl : Int) (c : Call) (h h1 : H)
    (ret : Int) (w : World) (hacc : accessors_resolve hst)
    (hd : direct hst ssl c h = .ok (ret, h1))
    (hwf : (hst.ssl_at h ssl).wf hst.modern) (hwf1 : (hst.ssl_at h1 ssl).wf hst.modern) :
    intercepted hst ssl c h w =
      .ok (ret, h1,
        if (hst.ssl_at h1 ssl).secret = [] then w
        else if (hst.ssl_at h ssl).secret = (hst.ssl_at h1 ssl).secret then w
        else log_key (hst.ssl_at h1 ssl) w) := by
  unfold direct at hd
  cases hl : lookup_symbol hst c.sym with
  | error e => rw [hl] at hd; simp [bind, Except.bind] at hd
  | ok func =>
    rw [hl] at hd
    simp only [bind, Except.bind, pure, Except.pure, Except.ok.injEq] at hd
    have htap := tap_ssl_key_spec hst h1 ssl (snapshot (hst.ssl_at h ssl)) w hacc hwf1
      (snapshot_wf _ _ hwf)
    rw [snapshot_secret _ _ hwf] at htap
    cases c <;>
      simp only [intercepted, SSL_connect, SSL_do_handshake, SSL_accept, SSL_read, SSL_write,
        Call.sym, Call.args] at hl hd ⊢ <;>
      simp only [hl, ssl_tap_state_init_ok hst h ssl hacc hwf, bind, Except.bind, pure,
        Except.pure, hd, htap]

/-! ## The key-log file -/

theorem init_keylog_file_open (w : World) (h : 0 ≤ w.keylog_file_fd) : init_keylog_file w = w := by
  unfold init_keylog_file
  rw [if_pos h]

theorem init_keylog_file_unset (w : World) (henv : w.SSLKEYLOGFILE = none) :
    init_keylog_file w = w := by
  unfold init_keylog_file
  split
  · rfl
  · rw [henv]

theorem init_keylog_file_fails (w : World) (path : String) (hfd : w.keylog_file_fd < 0)
    (henv : w.SSLKEYLOGFILE = some path)
    (hopen : ∀ fd rest, w.open_results ≠ some fd :: rest) :
    init_keylog_file w =
      { w with keylog_file_fd := -1, open_results := w.open_results.tail,
               trace := w.trace ++ [.open path] } := by
  unfold init_keylog_file
  rw [if_neg (by omega), henv]
  simp only [sys_open]
  cases hr : w.open_results with
  | nil => simp [henv]
  | cons r rest =>
    cases r with
    | none => simp [henv]
    | some fd => exact absurd hr (hopen fd rest)

theorem init_keylog_file_succeeds (w : World) (path : String) (fd : Nat)
    (rest : List (Option Nat)) (hfd : w.keylog_file_fd < 0)
    (henv : w.SSLKEYLOGFILE = some path) (hopen : w.open_results = some fd :: rest) :
    init_keylog_file w =
      { w with keylog_file_fd := (fd : Int), open_results := rest, opened := some (fd : Int),
               trace := w.trace ++ [.open path, .lseek (fd : Int)] ++
                 (if w.file = [] then [.write (fd : Int) FIRSTLINE] else []),
               file := if w.file = [] then FIRSTLINE else w.file } := by
  unfold init_keylog_file
  rw [if_neg (by omega), henv]
  simp only [sys_open, hopen, sys_lseek_end, sys_write]
  have hnn : (fd : Int) ≥ 0 := Int.ofNat_nonneg fd
  by_cases hfile : w.file = []
  · simp [hnn, hfile, henv]
  · have hlen : ¬ ((w.file.length : Int) = 0) := by
      intro hh
      exact hfile (List.length_eq_zero.mp (by omega))
    simp [hnn, hfile, hlen, henv]

theorem can_log_iff (w : World) : can_log w ↔ 0 ≤ (init_keylog_file w).keylog_file_fd := by
  unfold can_log
  by_cases hfd : 0 ≤ w.keylog_file_fd
  · rw [init_keylog_file_open w hfd]
    simp [hfd]
  · cases henv : w.SSLKEYLOGFILE with
    | none =>
      rw [init_keylog_file_unset w henv]
      simp [hfd]
    | some path =>
      by_cases hopen : ∃ fd rest, w.open_results = some fd :: rest
      · obtain ⟨fd, rest, hr⟩ := hopen
        rw [init_keylog_file_succeeds w path fd rest (by omega) henv hr]
        simp only [Option.isSome_some, true_and]
        constructor
        · intro _; exact Int.ofNat_nonneg fd
        · intro _; exact Or.inr ⟨fd, rest, hr⟩
      · rw [init_keylog_file_fails w path (by omega) henv
          (fun fd rest hr => hopen ⟨fd, rest, hr⟩)]
        simp [hfd, hopen]

/-! ## Claims about `tap_ssl_key` and the wrappers -/

/-- C4: whatever the prior snapshot holds, when the session has no master
secret after the real call (no session at all, or a key length of 0)
`tap_ssl_key` returns with the world as it found it: no system call is made,
so no log line is emitted and the key-log file is not opened. -/
theorem tap_ssl_key_without_secret {H : Type} (hst : Host H) (h : H) (ssl : Int)
    (state : ssl_tap_state_t) (w : World) (hacc : accessors_resolve hst)
    (hempty : ∀ session, (hst.ssl_at h ssl).session = some session →
      session.master_key_length = 0) :
    tap_ssl_key hst h ssl state w = .ok w := by
  unfold tap_ssl_key
  rw [ssl_get_session_ok hst h ssl hacc]
  simp only [bind, Except.bind]
  cases hs : (hst.ssl_at h ssl).session with
  | none => simp [pure, Except.pure]
  | some session =>
    have hz := hempty session hs
    have hcopy : copy_master_secret hst session (uninit w SSL_MAX_MASTER_KEY_LENGTH) 0 =
        .ok (uninit w SSL_MAX_MASTER_KEY_LENGTH, 0) := by
      unfold copy_master_secret
      cases hm : hst.modern with
      | false => simp [hz, pure, Except.pure]
      | true =>
        obtain ⟨func, hf⟩ := lookup_of_resolves hst _ (hacc hm).2.1
        simp [hf, bind, Except.bind, SSL_SESSION_get_master_key, SSL_MAX_MASTER_KEY_LENGTH, hz,
          memcpy, pure, Except.pure]
    simp only []
    rw [hcopy]
    simp [pure, Except.pure]

theorem tap_ssl_key_without_secret_witness :
    accessors_resolve (counting_host true reset_view) ∧
    tap_ssl_key (counting_host true reset_view) 1 0 (snapshot (session_with [0xAA, 0xBB]))
      world_open = .ok world_open :=
  ⟨by intro _; decide,
    tap_ssl_key_without_secret (counting_host true reset_view) 1 0 _ world_open
      (by intro _; decide) (by intro session hs; cases hs; rfl)⟩

/-- C2, as the claim states it, fails: the prior snapshot holds the two-byte
secret AA BB, the session has no master secret after the call (so the current
secret differs from the snapshot in its length), the key-log file is open,
and `tap_ssl_key` returns with the world unchanged, without any write. -/
theorem tap_ssl_key_differing_length_without_write :
    (snapshot (session_with [0xAA, 0xBB])).secret ≠
        ((counting_host false reset_view).ssl_at 1 0).secret ∧
    (snapshot (session_with [0xAA, 0xBB])).master_key_length ≠ 0 ∧
    ((counting_host false reset_view).ssl_at 1 0).secret.length = 0 ∧
    tap_ssl_key (counting_host false reset_view) 1 0 (snapshot (session_with [0xAA, 0xBB]))
      world_open = .ok world_open := by
  refine ⟨by decide, by decide, by decide, ?_⟩
  rw [tap_ssl_key_spec (counting_host false reset_view) 1 0 _ world_open
    (by intro hm; cases hm) (by decide) (by decide)]
  rfl

/-- C2, amended: a current secret with the same length and the same bytes as
the prior snapshot triggers no write (the world is left as it was); a current
secret that is not empty and differs from the prior snapshot in a byte or in
its length triggers the write: `init_keylog_file` runs and then, the
descriptor being non-negative (the file was open or its `open` succeeded),
`dump_to_fd` makes one `write` of the line for the current secret; an empty
current secret triggers nothing. -/
theorem tap_ssl_key_change_detection {H : Type} (hst : Host H) (h : H) (ssl : Int)
    (state : ssl_tap_state_t) (w : World) (hacc : accessors_resolve hst)
    (hwf : (hst.ssl_at h ssl).wf hst.modern) (hstate : state.wf) :
    (state.secret = (hst.ssl_at h ssl).secret → tap_ssl_key hst h ssl state w = .ok w) ∧
    ((hst.ssl_at h ssl).secret ≠ [] → state.secret ≠ (hst.ssl_at h ssl).secret →
      ∃ w1, tap_ssl_key hst h ssl state w = .ok w1 ∧
        (0 ≤ (init_keylog_file w).keylog_file_fd →
          w1.trace = (init_keylog_file w).trace ++
            [Syscall.write (init_keylog_file w).keylog_file_fd
              (log_line (seen_client_random (hst.ssl_at h ssl) w) (hst.ssl_at h ssl).secret
                (hst.ssl_at h ssl).secret.length)]) ∧
        (¬ 0 ≤ (init_keylog_file w).keylog_file_fd → w1 = init_keylog_file w)) ∧
    ((hst.ssl_at h ssl).secret = [] → tap_ssl_key hst h ssl state w = .ok w) := by
  have hspec := tap_ssl_key_spec hst h ssl state w hacc hwf hstate
  refine ⟨?_, ?_, ?_⟩
  · intro hsame
    rw [hspec, if_pos hsame]
    simp
  · intro hne hdiff
    rw [hspec, if_neg hne, if_neg hdiff]
    refine ⟨_, rfl, ?_, ?_⟩
    · intro hfd
      unfold log_key log_step
      simp only [ge_iff_le, if_pos hfd, sys_write_trace]
    · intro hfd
      unfold log_key log_step
      simp only [ge_iff_le, if_neg hfd]
  · intro hnil
    rw [hspec, if_pos hnil]

theorem tap_ssl_key_change_detection_witness :
    accessors_resolve (counting_host true renegotiation_view) ∧
    ((counting_host true renegotiation_view).ssl_at 2 0).wf true ∧
    (snapshot (session_with [0xAA, 0xBB])).wf ∧
    ∃ w1, tap_ssl_key (counting_host true renegotiation_view) 2 0
        (snapshot (session_with [0xAA, 0xBB])) world_fresh = .ok w1 ∧
      (0 ≤ (init_keylog_file world_fresh).keylog_file_fd →
        w1.trace = (init_keylog_file world_fresh).trace ++
          [Syscall.write (init_keylog_file world_fresh).keylog_file_fd
            (log_line (seen_client_random ((counting_host true renegotiation_view).ssl_at 2 0)
                world_fresh)
              ((counting_host true renegotiation_view).ssl_at 2 0).secret
              ((counting_host true renegotiation_view).ssl_at 2 0).secret.length)]) ∧
      (¬ 0 ≤ (init_keylog_file world_fresh).keylog_file_fd →
        w1 = init_keylog_file world_fresh) :=
  ⟨by intro _; decide, by decide, by decide,
    (tap_ssl_key_change_detection (counting_host true renegotiation_view) 2 0
      (snapshot (session_with [0xAA, 0xBB])) world_fresh (by intro _; decide) (by decide)
      (by decide)).2.1 (by decide) (by decide)⟩

theorem direct_of_lookup {H : Type} (hst : Host H) (ssl : Int) (c : Call) (h : H)
    (func : Func H) (hl : lookup_symbol hst c.sym = .ok func) :
    direct hst ssl c h = .ok ((func (c.args ssl) h).1, (func (c.args ssl) h).2) := by
  unfold direct
  rw [hl]
  rfl

theorem handshake_view_wf (modern : Bool) (n : Nat) : (handshake_view n).wf modern := by
  unfold handshake_view
  split
  · cases modern <;> decide
  · cases modern <;> decide

theorem renegotiation_view_wf (modern : Bool) (n : Nat) :
    (renegotiation_view n).wf modern := by
  unfold renegotiation_view
  split
  · cases modern <;> decide
  · split
    · cases modern <;> decide
    · cases modern <;> decide

theorem direct_ok {H : Type} (hst : Host H) (ssl : Int) (c : Call) (h : H)
    (hres : resolves hst c.sym = true) : ∃ ret h1, direct hst ssl c h = .ok (ret, h1) := by
  obtain ⟨func, hl⟩ := lookup_of_resolves hst _ hres
  exact ⟨_, _, direct_of_lookup hst ssl c h func hl⟩

theorem intercepted_run_cons {H : Type} (hst : Host H) (ssl : Int) (c : Call) (cs : List Call)
    (h h1 h2 : H) (w w1 w2 : World) (ret : Int) (rest : List Outcome)
    (hc : intercepted hst ssl c h w = .ok (ret, h1, w1))
    (hr : intercepted_run hst ssl cs h1 w1 = .ok (rest, h2, w2)) :
    intercepted_run hst ssl (c :: cs) h w =
      .ok ({ ret := ret, syscalls := w1.trace.drop w.trace.length } :: rest, h2, w2) := by
  simp [intercepted_run, hc, hr, bind, Except.bind, pure, Except.pure]

theorem host_states_cons {H : Type} (hst : Host H) (ssl : Int) (c : Call) (cs : List Call)
    (h h1 : H) (ret : Int) (hd : direct hst ssl c h = .ok (ret, h1)) :
    host_states hst ssl (c :: cs) h = h :: host_states hst ssl cs h1 := by
  simp [host_states, hd]

theorem counting_host_resolves (modern : Bool) (view : Nat → SSL) (sym : String) :
    resolves (counting_host modern view) sym = true := rfl

theorem FIRSTLINE_not_log_line (fd : Int) : is_log_line (.write fd FIRSTLINE) = false := by
  have h : decide (FIRSTLINE.take PREFIX_LEN = PREFIX) = false := by decide
  exact h

theorem log_line_is_log_line (fd : Int) (cr mk : List Nat) (n : Nat) :
    is_log_line (.write fd (log_line cr mk n)) = true := by
  unfold is_log_line log_line
  simp only [List.append_assoc, decide_eq_true_eq]
  exact List.take_left' rfl

theorem init_keylog_file_trace (w : World) :
    ∃ pre, (init_keylog_file w).trace = w.trace ++ pre ∧ pre.filter is_log_line = [] := by
  by_cases hfd : 0 ≤ w.keylog_file_fd
  · exact ⟨[], by rw [init_keylog_file_open w hfd, List.append_nil], rfl⟩
  · cases henv : w.SSLKEYLOGFILE with
    | none => exact ⟨[], by rw [init_keylog_file_unset w henv, List.append_nil], rfl⟩
    | some path =>
      by_cases hopen : ∃ fd rest, w.open_results = some fd :: rest
      · obtain ⟨fd, rest, hr⟩ := hopen
        rw [init_keylog_file_succeeds w path fd rest (by omega) henv hr]
        refine ⟨[.open path, .lseek (fd : Int)] ++
          (if w.file = [] then [.write (fd : Int) FIRSTLINE] else []), by
            simp only [List.append_assoc], ?_⟩
        by_cases hfile : w.file = []
        · have hh := FIRSTLINE_not_log_line (fd : Int)
          simp [hfile, List.filter, hh]
          rfl
        · simp [hfile, is_log_line, List.filter]
      · rw [init_keylog_file_fails w path (by omega) henv
          (fun fd rest hr => hopen ⟨fd, rest, hr⟩)]
        exact ⟨[.open path], rfl, rfl⟩

theorem log_key_trace (s : SSL) (w : World) (hlog : can_log w) :
    ∃ pre fd, (log_key s w).trace =
        w.trace ++ (pre ++ [Syscall.write fd
          (log_line (seen_client_random s w) s.secret s.secret.length)]) ∧
      pre.filter is_log_line = [] := by
  obtain ⟨pre, hpre, hfil⟩ := init_keylog_file_trace w
  have hfd := (can_log_iff w).mp hlog
  refine ⟨pre, (init_keylog_file w).keylog_file_fd, ?_, hfil⟩
  unfold log_key log_step
  simp only [ge_iff_le, if_pos hfd, sys_write_trace, hpre, List.append_assoc]

theorem drop_append_self {α : Type} (l m : List α) : (l ++ m).drop l.length = m :=
  List.drop_left' rfl

theorem quiet_run {H : Type} (hst : Host H) (ssl : Int) (secret : List Nat) (cs : List Call)
    (h : H) (w : World) (hacc : accessors_resolve hst)
    (hwf : ∀ h, (hst.ssl_at h ssl).wf hst.modern)
    (hres : ∀ c ∈ cs, resolves hst c.sym = true)
    (hsame : ∀ hi ∈ host_states hst ssl cs h, (hst.ssl_at hi ssl).secret = secret) :
    ∃ outs hN, intercepted_run hst ssl cs h w = .ok (outs, hN, w) ∧
      outs.length = cs.length ∧ ∀ o ∈ outs, o.syscalls = [] := by
  induction cs generalizing h with
  | nil => exact ⟨[], h, rfl, rfl, by simp⟩
  | cons c cs ih =>
    obtain ⟨ret, h1, hd⟩ := direct_ok hst ssl c h (hres c (List.mem_cons_self _ _))
    rw [host_states_cons hst ssl c cs h h1 ret hd] at hsame
    have hs0 := hsame h (List.mem_cons_self _ _)
    have hs1 : (hst.ssl_at h1 ssl).secret = secret := by
      apply hsame h1
      apply List.mem_cons_of_mem
      cases cs with
      | nil => simp [host_states]
      | cons c2 cs2 =>
        unfold host_states
        split <;> simp
    have hstep := intercepted_spec hst ssl c h h1 ret w hacc hd (hwf h) (hwf h1)
    rw [hs0, hs1] at hstep
    simp only [if_true, ite_self] at hstep
    obtain ⟨outs, hN, hrun, hlen, hq⟩ :=
      ih h1 (fun c hc => hres c (List.mem_cons_of_mem _ hc))
        (fun hi hm => hsame hi (List.mem_cons_of_mem _ hm))
    refine ⟨_, hN, intercepted_run_cons hst ssl c cs h h1 hN w w w ret outs hstep hrun,
      by simp [hlen], ?_⟩
    intro o ho
    rcases List.mem_cons.mp ho with rfl | ho
    · simp
    · exact hq o ho

theorem mem_host_states_self {H : Type} (hst : Host H) (ssl : Int) (cs : List Call) (h : H) :
    h ∈ host_states hst ssl cs h := by
  cases cs with
  | nil => simp [host_states]
  | cons c cs =>
    unfold host_states
    split <;> simp

theorem host_states_head {H : Type} (hst : Host H) (ssl : Int) (cs : List Call) (h : H) :
    ∃ tl, host_states hst ssl cs h = h :: tl := by
  cases cs with
  | nil => exact ⟨[], rfl⟩
  | cons c cs =>
    unfold host_states
    split
    · exact ⟨_, rfl⟩
    · exact ⟨[], rfl⟩

theorem one_line_run {H : Type} (hst : Host H) (ssl : Int) (secret : List Nat)
    (hacc : accessors_resolve hst) (hwf : ∀ h, (hst.ssl_at h ssl).wf hst.modern)
    (hne : secret ≠ []) (cs : List Call) :
    ∀ (k : Nat) (h : H) (w : World), 1 ≤ k → k ≤ cs.length →
      (∀ c ∈ cs, resolves hst c.sym = true) →
      (∀ hi ∈ (host_states hst ssl cs h).take k, (hst.ssl_at hi ssl).secret = []) →
      (∀ hi ∈ (host_states hst ssl cs h).drop k, (hst.ssl_at hi ssl).secret = secret) →
      can_log w →
      ∃ outs hN wN, intercepted_run hst ssl cs h w = .ok (outs, hN, wN) ∧
        outs.length = cs.length ∧
        ∀ j o, outs[j]? = some o →
          (j + 1 ≠ k → o.syscalls = []) ∧
          (j + 1 = k → ∃ pre fd cr, o.syscalls =
              pre ++ [Syscall.write fd (log_line cr secret secret.length)] ∧
            pre.filter is_log_line = []) := by
  induction cs with
  | nil => intro k h w hk1 hk2; simp at hk2; omega
  | cons c cs ih =>
    intro k h w hk1 hk2 hres hbefore hafter hlog
    obtain ⟨ret, h1, hd⟩ := direct_ok hst ssl c h (hres c (List.mem_cons_self _ _))
    rw [host_states_cons hst ssl c cs h h1 ret hd] at hbefore hafter
    have hstep := intercepted_spec hst ssl c h h1 ret w hacc hd (hwf h) (hwf h1)
    obtain ⟨k', rfl⟩ : ∃ k', k = k' + 1 := ⟨k - 1, by omega⟩
    simp only [List.take_succ_cons, List.drop_succ_cons] at hbefore hafter
    have hs0 : (hst.ssl_at h ssl).secret = [] := hbefore h (List.mem_cons_self _ _)
    cases k' with
    | zero =>
      have hs1 : (hst.ssl_at h1 ssl).secret = secret :=
        hafter h1 (by rw [List.drop_zero]; exact mem_host_states_self hst ssl cs h1)
      rw [hs0, hs1, if_neg hne, if_neg (fun hh => hne hh.symm)] at hstep
      obtain ⟨outs, hN, hrun, hlen, hq⟩ := quiet_run hst ssl secret cs h1
        (log_key (hst.ssl_at h1 ssl) w) hacc hwf
        (fun c hc => hres c (List.mem_cons_of_mem _ hc))
        (by rw [List.drop_zero] at hafter; exact hafter)
      obtain ⟨pre, fd, htr, hfil⟩ := log_key_trace (hst.ssl_at h1 ssl) w hlog
      refine ⟨_, hN, _, intercepted_run_cons hst ssl c cs h h1 hN w _ _ ret outs hstep hrun,
        by simp [hlen], ?_⟩
      intro j o hj
      cases j with
      | zero =>
        simp only [List.getElem?_cons_zero, Option.some.injEq] at hj
        subst hj
        refine ⟨fun hh => absurd rfl hh,
          fun _ => ⟨pre, fd, seen_client_random (hst.ssl_at h1 ssl) w, ?_, hfil⟩⟩
        simp only []
        rw [htr, drop_append_self, hs1]
      | succ j =>
        simp only [List.getElem?_cons_succ] at hj
        exact ⟨fun _ => hq o (List.getElem?_mem hj), fun hh => by omega⟩
    | succ k'' =>
      have hs1 : (hst.ssl_at h1 ssl).secret = [] :=
        hbefore h1 (List.mem_cons_of_mem _ (by
          obtain ⟨tl, htl⟩ := host_states_head hst ssl cs h1
          rw [htl, List.take_succ_cons]
          exact List.mem_cons_self _ _))
      rw [hs1] at hstep
      simp only [if_true] at hstep
      obtain ⟨outs, hN, wN, hrun, hlen, hq⟩ := ih (k'' + 1) h1 w (by omega)
        (by simp only [List.length_cons] at hk2; omega)
        (fun c hc => hres c (List.mem_cons_of_mem _ hc))
        (fun hi hm => hbefore hi (List.mem_cons_of_mem _ hm)) hafter hlog
      refine ⟨_, hN, wN, intercepted_run_cons hst ssl c cs h h1 hN w w wN ret outs hstep hrun,
        by simp [hlen], ?_⟩
      intro j o hj
      cases j with
      | zero =>
        simp only [List.getElem?_cons_zero, Option.some.injEq] at hj
        subst hj
        exact ⟨fun _ => by simp, fun hh => by omega⟩
      | succ j =>
        simp only [List.getElem?_cons_succ] at hj
        obtain ⟨hq1, hq2⟩ := hq j o hj
        exact ⟨fun hh => hq1 (by omega), fun hh => hq2 (by omega)⟩

theorem sum_zero_of_all_zero (l : List Nat) (hl : ∀ x ∈ l, x = 0) : l.sum = 0 := by
  induction l with
  | nil => rfl
  | cons x l ih =>
    rw [List.sum_cons, hl x (List.mem_cons_self _ _),
      ih (fun y hy => hl y (List.mem_cons_of_mem _ hy))]

theorem sum_indicator (l : List Nat) :
    ∀ k, 1 ≤ k → k ≤ l.length →
      (∀ j x, l[j]? = some x → x = if j + 1 = k then 1 else 0) → l.sum = 1 := by
  induction l with
  | nil => intro k h1 h2; simp at h2; omega
  | cons x l ih =>
    intro k h1 h2 hl
    have hx := hl 0 x (by simp)
    rw [List.sum_cons]
    by_cases hk : k = 1
    · subst hk
      rw [hx, sum_zero_of_all_zero l]
      · rfl
      · intro y hy
        obtain ⟨j, hj⟩ := List.mem_iff_getElem?.mp hy
        have := hl (j + 1) y (by simpa using hj)
        rw [this, if_neg (by omega)]
    · rw [hx, if_neg (by omega), ih (k - 1) (by omega)
        (by simp only [List.length_cons] at h2; omega)]
      intro j y hj
      have := hl (j + 1) y (by simpa using hj)
      rw [this]
      by_cases hjk : j + 1 = k - 1
      · rw [if_pos hjk, if_pos (by omega)]
      · rw [if_neg hjk, if_neg (by omega)]

/-- C3, as the claim states it, fails: with `SSLKEYLOGFILE` unset, three calls
on a session whose secret is empty before the second call and is AA BB from
the second call on emit no log line at all. -/
theorem handshake_without_log_line :
    (host_states (counting_host false handshake_view) 7
        [.connect, .do_handshake, .read 100 16] 0).map (fun n => (handshake_view n).secret) =
      [[], [], [0xAA, 0xBB], [0xAA, 0xBB]] ∧
    (intercepted_run (counting_host false handshake_view) 7
        [.connect, .do_handshake, .read 100 16] 0 world_unset).toOption.map
        (fun r => r.1.map (fun o => (o.syscalls.filter is_log_line).length)) =
      some [0, 0, 0] := by
  constructor <;> decide

/-- C3, amended: take calls on one session whose secret is empty in every
state before call `k` and is the same non-empty `secret` in every state from
call `k` on, and let the key-log file be open, or `SSLKEYLOGFILE` be set with
the next `open` succeeding. Then exactly one log line is emitted over the
whole sequence; it is written during call `k` and is the line of `secret`; and
no other call makes any system call. -/
theorem one_log_line_when_secret_appears {H : Type} (hst : Host H) (ssl : Int)
    (secret : List Nat) (cs : List Call) (k : Nat) (h : H) (w : World)
    (hacc : accessors_resolve hst) (hwf : ∀ h, (hst.ssl_at h ssl).wf hst.modern)
    (hres : ∀ c ∈ cs, resolves hst c.sym = true) (hk1 : 1 ≤ k) (hk2 : k ≤ cs.length)
    (hbefore : ∀ hi ∈ (host_states hst ssl cs h).take k, (hst.ssl_at hi ssl).secret = [])
    (hafter : ∀ hi ∈ (host_states hst ssl cs h).drop k, (hst.ssl_at hi ssl).secret = secret)
    (hne : secret ≠ []) (hlog : can_log w) :
    ∃ outs hN wN, intercepted_run hst ssl cs h w = .ok (outs, hN, wN) ∧
      outs.length = cs.length ∧
      (outs.map (fun o => (o.syscalls.filter is_log_line).length)).sum = 1 ∧
      (∀ j o, outs[j]? = some o →
        (o.syscalls.filter is_log_line).length = if j + 1 = k then 1 else 0) ∧
      (∀ j o, outs[j]? = some o → j + 1 = k →
        ∃ pre fd cr, o.syscalls =
            pre ++ [Syscall.write fd (log_line cr secret secret.length)] ∧
          pre.filter is_log_line = []) ∧
      (∀ j o, outs[j]? = some o → j + 1 ≠ k → o.syscalls = []) := by
  obtain ⟨outs, hN, wN, hrun, hlen, hshape⟩ :=
    one_line_run hst ssl secret hacc hwf hne cs k h w hk1 hk2 hres hbefore hafter hlog
  have hcount : ∀ j o, outs[j]? = some o →
      (o.syscalls.filter is_log_line).length = if j + 1 = k then 1 else 0 := by
    intro j o hj
    obtain ⟨h1, h2⟩ := hshape j o hj
    by_cases hjk : j + 1 = k
    · obtain ⟨pre, fd, cr, hsys, hfil⟩ := h2 hjk
      rw [if_pos hjk, hsys, List.filter_append, hfil, List.nil_append]
      simp [List.filter, log_line_is_log_line]
    · rw [if_neg hjk, h1 hjk]
      rfl
  refine ⟨outs, hN, wN, hrun, hlen, ?_, hcount, fun j o hj hjk => (hshape j o hj).2 hjk,
    fun j o hj hjk => (hshape j o hj).1 hjk⟩
  apply sum_indicator _ k hk1 (by rw [List.length_map, hlen]; exact hk2)
  intro j x hj
  rw [List.getElem?_map] at hj
  cases ho : outs[j]? with
  | none => rw [ho] at hj; simp at hj
  | some o =>
    rw [ho] at hj
    simp only [Option.map_some', Option.some.injEq] at hj
    rw [← hj]
    exact hcount j o ho

theorem one_log_line_when_secret_appears_witness :
    accessors_resolve (counting_host true handshake_view) ∧
    (∀ hi ∈ (host_states (counting_host true handshake_view) 7
        [.connect, .do_handshake, .read 100 16] 0).take 2,
      ((counting_host true handshake_view).ssl_at hi 7).secret = []) ∧
    (∀ hi ∈ (host_states (counting_host true handshake_view) 7
        [.connect, .do_handshake, .read 100 16] 0).drop 2,
      ((counting_host true handshake_view).ssl_at hi 7).secret = [0xAA, 0xBB]) ∧
    can_log world_fresh ∧
    ∃ outs hN wN, intercepted_run (counting_host true handshake_view) 7
        [.connect, .do_handshake, .read 100 16] 0 world_fresh = .ok (outs, hN, wN) ∧
      outs.length = [Call.connect, Call.do_handshake, Call.read 100 16].length ∧
      (outs.map (fun o => (o.syscalls.filter is_log_line).length)).sum = 1 ∧
      (∀ j o, outs[j]? = some o →
        (o.syscalls.filter is_log_line).length = if j + 1 = 2 then 1 else 0) ∧
      (∀ j o, outs[j]? = some o → j + 1 = 2 →
        ∃ pre fd cr, o.syscalls =
            pre ++ [Syscall.write fd (log_line cr [0xAA, 0xBB] [0xAA, 0xBB].length)] ∧
          pre.filter is_log_line = []) ∧
      (∀ j o, outs[j]? = some o → j + 1 ≠ 2 → o.syscalls = []) :=
  ⟨by intro _; decide, by decide, by decide, Or.inr ⟨rfl, 3, [], rfl⟩,
    one_log_line_when_secret_appears (counting_host true handshake_view) 7 [0xAA, 0xBB]
      [.connect, .do_handshake, .read 100 16] 2 0 world_fresh (by intro _; decide)
      (fun n => handshake_view_wf true n) (fun c _ => counting_host_resolves _ _ c.sym)
      (by decide) (by decide) (by decide) (by decide) (by decide)
      (Or.inr ⟨rfl, 3, [], rfl⟩)⟩

theorem log_key_open_fails (s : SSL) (w : World) (path : String) (hfd : w.keylog_file_fd < 0)
    (henv : w.SSLKEYLOGFILE = some path) (hfail : ∀ r ∈ w.open_results, r = none) :
    log_key s w =
      { w with keylog_file_fd := -1, open_results := w.open_results.tail,
               trace := w.trace ++ [.open path] } := by
  unfold log_key log_step
  rw [init_keylog_file_fails w path hfd henv (by
    intro fd rest hr
    have := hfail (some fd) (by rw [hr]; exact List.mem_cons_self _ _)
    cases this)]
  simp

set_option maxRecDepth 100000 in
/-- C8, as the claim states it, fails: `SSLKEYLOGFILE` names a file that cannot
be opened, the session gets a secret during the first call and another during
the second, and the second call calls `open` again; and when that second
`open` succeeds, the second call writes its log line. -/
theorem failed_open_tried_again :
    (intercepted_run (counting_host false renegotiation_view) 7
        [.connect, .read 100 16] 0 world_unopenable).toOption.map
        (fun r => r.1.map Outcome.syscalls) =
      some [[Syscall.open "/nowhere/keys.log"], [Syscall.open "/nowhere/keys.log"]] ∧
    (intercepted_run (counting_host false renegotiation_view) 7
        [.connect, .read 100 16] 0 world_flaky).toOption.map
        (fun r => r.1.map Outcome.syscalls) =
      some [[Syscall.open "keys.log"],
        [Syscall.open "keys.log", Syscall.lseek 3, Syscall.write 3 FIRSTLINE,
          Syscall.write 3 (key_log_line (List.range' 1 32) [0xCC])]] := by
  constructor <;> decide

/-- C8, amended: when `SSLKEYLOGFILE` is set and every `open` fails, a call
that has a line to log (the secret after the real call is not empty and
differs from the one before it) makes one system call, the failing `open`,
and writes nothing; the descriptor stays negative and the file untouched; and
every later call that has a line to log calls `open` again, while a call with
nothing to log makes no system call. -/
theorem failed_open_is_retried {H : Type} (hst : Host H) (ssl : Int) (cs : List Call) (h : H)
    (w : World) (path : String) (hacc : accessors_resolve hst)
    (hwf : ∀ h, (hst.ssl_at h ssl).wf hst.modern)
    (hres : ∀ c ∈ cs, resolves hst c.sym = true)
    (hfd : w.keylog_file_fd < 0) (henv : w.SSLKEYLOGFILE = some path)
    (hfail : ∀ r ∈ w.open_results, r = none) :
    ∃ outs hN wN, intercepted_run hst ssl cs h w = .ok (outs, hN, wN) ∧
      outs.length = cs.length ∧ wN.keylog_file_fd < 0 ∧ wN.file = w.file ∧
      wN.opened = w.opened ∧
      ∀ j o hj hj1, outs[j]? = some o → (host_states hst ssl cs h)[j]? = some hj →
        (host_states hst ssl cs h)[j + 1]? = some hj1 →
        o.syscalls =
          if (hst.ssl_at hj1 ssl).secret ≠ [] ∧
              (hst.ssl_at hj ssl).secret ≠ (hst.ssl_at hj1 ssl).secret
          then [Syscall.open path] else [] := by
  induction cs generalizing h w with
  | nil => exact ⟨[], h, w, rfl, rfl, hfd, rfl, rfl, by intro j o hj hj1 ho; simp at ho⟩
  | cons c cs ih =>
    obtain ⟨ret, h1, hd⟩ := direct_ok hst ssl c h (hres c (List.mem_cons_self _ _))
    have hstep := intercepted_spec hst ssl c h h1 ret w hacc hd (hwf h) (hwf h1)
    rw [log_key_open_fails _ w path hfd henv hfail] at hstep
    obtain ⟨tl, htl⟩ := host_states_head hst ssl cs h1
    by_cases hlogs : (hst.ssl_at h1 ssl).secret ≠ [] ∧
        (hst.ssl_at h ssl).secret ≠ (hst.ssl_at h1 ssl).secret
    · rw [if_neg hlogs.1, if_neg hlogs.2] at hstep
      obtain ⟨outs, hN, wN, hrun, hlen, hfdN, hfileN, hopN, hq⟩ :=
        ih h1 { w with keylog_file_fd := -1, open_results := w.open_results.tail,
                       trace := w.trace ++ [.open path] }
          (fun c hc => hres c (List.mem_cons_of_mem _ hc)) (show (-1 : Int) < 0 by decide) henv
          (fun r hr => hfail r (List.mem_of_mem_tail hr))
      refine ⟨_, hN, wN, intercepted_run_cons hst ssl c cs h h1 hN w _ wN ret outs hstep hrun,
        by simp [hlen], hfdN, hfileN, hopN, ?_⟩
      intro j o hj hj1 ho hsj hsj1
      rw [host_states_cons hst ssl c cs h h1 ret hd] at hsj hsj1
      cases j with
      | zero =>
        simp only [List.getElem?_cons_zero, Option.some.injEq] at ho hsj
        simp only [List.getElem?_cons_succ, htl, List.getElem?_cons_zero,
          Option.some.injEq] at hsj1
        subst ho; subst hsj; subst hsj1
        rw [if_pos hlogs]
        simp only []
        exact drop_append_self _ _
      | succ j =>
        simp only [List.getElem?_cons_succ] at ho hsj hsj1
        exact hq j o hj hj1 ho hsj hsj1
    · have hw : (if (hst.ssl_at h1 ssl).secret = [] then w
          else if (hst.ssl_at h ssl).secret = (hst.ssl_at h1 ssl).secret then w
          else { w with keylog_file_fd := -1, open_results := w.open_results.tail,
                        trace := w.trace ++ [.open path] }) = w := by
        by_cases h1e : (hst.ssl_at h1 ssl).secret = []
        · rw [if_pos h1e]
        · rw [if_neg h1e]
          by_cases h2e : (hst.ssl_at h ssl).secret = (hst.ssl_at h1 ssl).secret
          · rw [if_pos h2e]
          · exact absurd ⟨h1e, h2e⟩ hlogs
      rw [hw] at hstep
      obtain ⟨outs, hN, wN, hrun, hlen, hfdN, hfileN, hopN, hq⟩ :=
        ih h1 w (fun c hc => hres c (List.mem_cons_of_mem _ hc)) hfd henv hfail
      refine ⟨_, hN, wN, intercepted_run_cons hst ssl c cs h h1 hN w w wN ret outs hstep hrun,
        by simp [hlen], hfdN, hfileN, hopN, ?_⟩
      intro j o hj hj1 ho hsj hsj1
      rw [host_states_cons hst ssl c cs h h1 ret hd] at hsj hsj1
      cases j with
      | zero =>
        simp only [List.getElem?_cons_zero, Option.some.injEq] at ho hsj
        simp only [List.getElem?_cons_succ, htl, List.getElem?_cons_zero,
          Option.some.injEq] at hsj1
        subst ho; subst hsj; subst hsj1
        rw [if_neg hlogs]
        simp
      | succ j =>
        simp only [List.getElem?_cons_succ] at ho hsj hsj1
        exact hq j o hj hj1 ho hsj hsj1

/-! ## The header line -/

theorem failed_open_is_retried_witness :
    accessors_resolve (counting_host false renegotiation_view) ∧
    world_unopenable.keylog_file_fd < 0 ∧
    world_unopenable.SSLKEYLOGFILE = some "/nowhere/keys.log" ∧
    (∀ r ∈ world_unopenable.open_results, r = none) ∧
    ∃ outs hN wN, intercepted_run (counting_host false renegotiation_view) 7
        [.connect, .read 100 16, .write 200 8] 0 world_unopenable = .ok (outs, hN, wN) ∧
      outs.length = [Call.connect, Call.read 100 16, Call.write 200 8].length ∧
      wN.keylog_file_fd < 0 ∧ wN.file = world_unopenable.file ∧
      wN.opened = world_unopenable.opened ∧
      ∀ j o hj hj1, outs[j]? = some o →
        (host_states (counting_host false renegotiation_view) 7
          [.connect, .read 100 16, .write 200 8] 0)[j]? = some hj →
        (host_states (counting_host false renegotiation_view) 7
          [.connect, .read 100 16, .write 200 8] 0)[j + 1]? = some hj1 →
        o.syscalls =
          if ((counting_host false renegotiation_view).ssl_at hj1 7).secret ≠ [] ∧
              ((counting_host false renegotiation_view).ssl_at hj 7).secret ≠
                ((counting_host false renegotiation_view).ssl_at hj1 7).secret
          then [Syscall.open "/nowhere/keys.log"] else [] :=
  ⟨(by intro hm; cases hm), by decide, rfl, by decide,
    failed_open_is_retried (counting_host false renegotiation_view) 7
      [.connect, .read 100 16, .write 200 8] 0 world_unopenable "/nowhere/keys.log"
      (by intro hm; cases hm) (fun n => renegotiation_view_wf false n)
      (fun c _ => counting_host_resolves _ _ c.sym) (by decide) rfl (by decide)⟩

end SslKeylog
